import Mathlib

/-!
# react-validatorjs-strategy

A shallow embedding of `src/strategy.js`, the adapter that lets
react-validation-mixin delegate rule checking to the validatorjs engine.

* JavaScript objects are dictionaries of own properties (`JSObject`) that inherit
  from `Object.prototype`.
* A schema that the source mutates in place is passed in and handed back.
* The validatorjs engine and the functions supplied by the caller are outside
  the module; they are collected in `Env`, and every call the module makes to
  them is written to a trace of `Event`s.
-/

namespace Strategy

/-! ## JavaScript values and objects -/

/-- JavaScript values, as far as the adapter inspects them. Objects and functions
other than the ones the adapter reads are kept by reference. -/
inductive Value where
  | undefined
  | null
  | boolean (b : Bool)
  | number (n : Int)
  | string (s : String)
  | array (items : List String)
  | object (ref : Nat)
  | function (ref : Nat)
  deriving DecidableEq, Repr

/-- The operator `typeof v`. -/
def typeOf : Value → String
  | .undefined => "undefined"
  | .null => "object"
  | .boolean _ => "boolean"
  | .number _ => "number"
  | .string _ => "string"
  | .array _ => "object"
  | .object _ => "object"
  | .function _ => "function"

/-- The assignment `o[k] = v` on the list of own properties: an existing property
keeps its place and takes the new value, a new property is added at the end. -/
def setEntries : List (String × Value) → String → Value → List (String × Value)
  | [], k, v => [(k, v)]
  | (k', v') :: rest, k, v =>
    if k' = k then (k, v) :: rest else (k', v') :: setEntries rest k v

/-- The names of the methods of `Object.prototype`. -/
def prototypeMethods : List String :=
  ["constructor", "hasOwnProperty", "isPrototypeOf", "propertyIsEnumerable", "toLocaleString",
    "toString", "valueOf", "__defineGetter__", "__defineSetter__", "__lookupGetter__",
    "__lookupSetter__"]

/-- The read `Object.prototype[k]`, which is what an object without an own
property `k` gives for `k`: a method, kept by reference, for the names in
`prototypeMethods`; the prototype itself for `__proto__`; undefined otherwise. -/
def inherited (k : String) : Value :=
  if k = "__proto__" then Value.object 0
  else if k ∈ prototypeMethods then Value.function (100 + prototypeMethods.indexOf k)
  else Value.undefined

/-- A plain JavaScript object: its own enumerable properties in enumeration order,
no property name twice and none named `__proto__` (an object literal with plain
names and the assignments of the module make no such property). Its prototype
is `Object.prototype`; a change of prototype is not part of the model, and
neither is the rule that engines enumerate integer-like names first: names are
enumerated in insertion order. -/
structure JSObject where
  entries : List (String × Value)
  nodup : (entries.map Prod.fst).Nodup
  plain : "__proto__" ∉ entries.map Prod.fst
  deriving DecidableEq

namespace JSObject

/-- The literal `{}`. -/
def empty : JSObject := ⟨[], List.nodup_nil, List.not_mem_nil _⟩

/-- The call `Object.keys(o)`. -/
def keys (o : JSObject) : List String := o.entries.map Prod.fst

/-- Own property lookup: `none` when `o` has no own property `k`. -/
def find? (o : JSObject) (k : String) : Option Value :=
  (o.entries.find? (fun e => e.1 = k)).map Prod.snd

/-- Whether `o` has an own property `k` (`o.hasOwnProperty(k)`). -/
def has (o : JSObject) (k : String) : Bool := (o.find? k).isSome

/-- The read `o[k]`: the own property `k` of `o`, or else what `o` inherits from
`Object.prototype` for `k`. -/
def get (o : JSObject) (k : String) : Value := (o.find? k).getD (inherited k)

/-- The assignment `o[k] = v`. For the name `__proto__` it runs the setter
inherited from `Object.prototype`, which adds no own property. -/
def set (o : JSObject) (k : String) (v : Value) : JSObject :=
  if hproto : k = "__proto__" then o
  else
    have key : ∀ es : List (String × Value), (es.map Prod.fst).Nodup →
        ((setEntries es k v).map Prod.fst).Nodup ∧
          ∀ x, x ∈ (setEntries es k v).map Prod.fst → x = k ∨ x ∈ es.map Prod.fst := by
      intro es
      induction es with
      | nil => intro _; simp [setEntries]
      | cons e rest ih =>
        obtain ⟨k', v'⟩ := e
        intro h
        rw [List.map_cons, List.nodup_cons] at h
        obtain ⟨hnot, hrest⟩ := h
        obtain ⟨ih1, ih2⟩ := ih hrest
        by_cases hk : k' = k
        · subst hk
          simp only [setEntries, if_true, List.map_cons, List.nodup_cons, List.mem_cons]
          exact ⟨⟨hnot, hrest⟩, fun x hx => hx.elim Or.inl (fun h => Or.inr (Or.inr h))⟩
        · simp only [setEntries, if_neg hk, List.map_cons, List.nodup_cons, List.mem_cons]
          refine ⟨⟨fun hmem => ?_, ih1⟩, fun x hx => ?_⟩
          · rcases ih2 k' hmem with h | h
            · exact hk h
            · exact hnot h
          · rcases hx with h | h
            · exact Or.inr (Or.inl h)
            · rcases ih2 x h with h | h
              · exact Or.inl h
              · exact Or.inr (Or.inr h)
    ⟨setEntries o.entries k v, (key o.entries o.nodup).1, fun hmem =>
      ((key o.entries o.nodup).2 _ hmem).elim (fun h => hproto h.symm) o.plain⟩

/-- An object literal `{k1: v1, k2: v2, ...}`. -/
def ofList (es : List (String × Value)) : JSObject :=
  es.foldl (fun o e => o.set e.1 e.2) empty

end JSObject

/-- The call `xs.indexOf(x)` on an array of strings, searched from position `i`. -/
def indexOfFrom (x : String) : List String → Nat → Int
  | [], _ => -1
  | y :: ys, i => if y = x then (i : Int) else indexOfFrom x ys (i + 1)

/-- The call `xs.indexOf(x)`: the first position of `x`, or `-1`. -/
def indexOf (xs : List String) (x : String) : Int := indexOfFrom x xs 0

/-- The call `xs.push(x)`. -/
def push (xs : List String) (x : String) : List String := xs ++ [x]

/-! ## Schemas -/

/-- A schema. `activeRules = none` stands for the attribute being undefined. -/
structure Schema where
  rules : JSObject
  messages : Value
  callback : Value
  activeRules : Option (List String)
  deriving DecidableEq

/-- Source: `createSchema(rules, messages, callback)`. -/
def createSchema (rules : JSObject) (messages callback : Value) : Schema :=
  { rules := rules, messages := messages, callback := callback, activeRules := none }

/-- Source: `createInactiveSchema(rules, messages, callback)`. -/
def createInactiveSchema (rules : JSObject) (messages callback : Value) : Schema :=
  let schema := createSchema rules messages callback
  { schema with activeRules := some [] }

/-- Source: `activateRule(schema, rule)`; the schema after the call. -/
def activateRule (schema : Schema) (rule : String) : Schema :=
  match schema.activeRules with
  | some active =>
    if indexOf active rule = -1 then { schema with activeRules := some (push active rule) }
    else schema
  | none => schema

/-! ## The engine and the caller -/

/-- Something thrown by the engine or by a function of the caller. -/
structure Fault where
  thrown : Value
  deriving DecidableEq, Repr

/-- What lies outside the module, over the engine's type `V` of validator states.
`construct` is `new Validator(data, rules, messages)`; `call fn v` is the call of
the function value `fn` on the validator, giving the validator as the function
leaves it; `checkAsync v` lists the handler calls the engine makes for
`v.checkAsync(passes, fails)`, each with `true` for `passes` or `false` for
`fails` and the validator as it is at that moment; `errorsGet` and `errorsAll`
are `v.errors.get(name)` and `v.errors.all()`. -/
structure Env (V : Type) where
  construct : Value → JSObject → Value → Except Fault V
  call : Value → V → Except Fault V
  checkAsync : V → List (Bool × V)
  errorsGet : V → String → Value
  errorsAll : V → JSObject

/-- The calls the module makes to the outside. -/
inductive Event (V : Type) where
  | construct (data : Value) (rules : JSObject) (messages : Value)
  | hook (fn : Value) (validator : V)
  | checkAsync (validator : V)
  | callback (errors : JSObject)

/-- The first half of `createValidator`: the schema after the call and the rules
object handed to the engine. -/
def selectRules (schema : Schema) (forceActive : Bool) : Schema × JSObject :=
  match schema.activeRules with
  | some active =>
    let schema1 :=
      if forceActive then { schema with activeRules := some schema.rules.keys } else schema
    let active1 := if forceActive then schema.rules.keys else active
    (schema1, active1.foldl
      (fun rules ruleName => rules.set ruleName (schema1.rules.get ruleName)) JSObject.empty)
  | none => (schema, schema.rules)

/-- The outcome of `createValidator`. -/
structure Created (V : Type) where
  schema : Schema
  trace : List (Event V)
  result : Except Fault V

/-- Source: `createValidator(data, schema, forceActive)`. -/
def createValidator {V : Type} (env : Env V) (data : Value) (schema : Schema)
    (forceActive : Bool) : Created V :=
  let selected := selectRules schema forceActive
  let schema1 := selected.1
  let rules := selected.2
  match env.construct data rules schema1.messages with
  | .error e => ⟨schema1, [Event.construct data rules schema1.messages], .error e⟩
  | .ok validator =>
    if typeOf schema1.callback = "function" then
      ⟨schema1,
        [Event.construct data rules schema1.messages, Event.hook schema1.callback validator],
        env.call schema1.callback validator⟩
    else
      ⟨schema1, [Event.construct data rules schema1.messages], .ok validator⟩

/-- The argument of `validate` named `options`. -/
structure Options where
  key : Option String
  prevErrors : JSObject
  deriving DecidableEq

/-- Truthiness of `options.key`: undefined and the empty string are falsy. -/
def truthy : Option String → Bool
  | none => false
  | some s => decide (s ≠ "")

/-- The closure `getErrors` of `validate`, run on the validator as the engine left
it: `options.prevErrors` after the call and the value passed to `callback`. -/
def getErrors {V : Type} (env : Env V) (key : Option String) (prevErrors : JSObject)
    (validator : V) : JSObject × JSObject :=
  match key with
  | some name =>
    if truthy (some name) then
      let merged := prevErrors.set name (env.errorsGet validator name)
      (merged, merged)
    else (prevErrors, env.errorsAll validator)
  | none => (prevErrors, env.errorsAll validator)

/-- The outcome of `validate`. -/
structure Validated (V : Type) where
  schema : Schema
  prevErrors : JSObject
  trace : List (Event V)
  fault : Option Fault

/-- Source: `validate(data, schema, options, callback)`; the calls of `callback`
are the `Event.callback` entries of the trace. -/
def validate {V : Type} (env : Env V) (data : Value) (schema : Schema)
    (options : Options) : Validated V :=
  let forceActive := !truthy options.key
  let created := createValidator env data schema forceActive
  match created.result with
  | .error e => ⟨created.schema, options.prevErrors, created.trace, some e⟩
  | .ok validator =>
    let handled := (env.checkAsync validator).foldl
      (fun (acc : JSObject × List (Event V)) handler =>
        let shaped := getErrors env options.key acc.1 handler.2
        (shaped.1, acc.2 ++ [Event.callback shaped.2]))
      (options.prevErrors, [])
    ⟨created.schema, handled.1, created.trace ++ Event.checkAsync validator :: handled.2, none⟩

/-- Source: `strategy.Error`, with the attribute `errors` set by `validateServer`. -/
structure StrategyError where
  message : String
  errors : JSObject
  deriving DecidableEq

/-- The state of the promise returned by `validateServer`. -/
inductive Promise where
  | pending
  | resolved
  | rejected (e : StrategyError)
  deriving DecidableEq

/-- A promise is settled by the first call of `resolve` or `reject`. -/
def settle : Promise → Promise → Promise
  | .pending, next => next
  | settled, _ => settled

/-- The outcome of `validateServer`. -/
structure Served (V : Type) where
  schema : Schema
  trace : List (Event V)
  result : Except Fault Promise

/-- Source: `validateServer(data, schema)`. -/
def validateServer {V : Type} (env : Env V) (data : Value) (schema : Schema) : Served V :=
  let created := createValidator env data schema true
  match created.result with
  | .error e => ⟨created.schema, created.trace, .error e⟩
  | .ok validator =>
    let promise := (env.checkAsync validator).foldl
      (fun p handler =>
        settle p (if handler.1 then Promise.resolved
          else Promise.rejected ⟨"A validation error occurred", env.errorsAll handler.2⟩))
      Promise.pending
    ⟨created.schema, created.trace ++ [Event.checkAsync validator], .ok promise⟩

/-- The hook calls of a trace: the function called and the validator passed. -/
def hookCalls {V : Type} : List (Event V) → List (Value × V)
  | [] => []
  | Event.hook fn validator :: rest => (fn, validator) :: hookCalls rest
  | _ :: rest => hookCalls rest

/-- The rules objects handed to the engine's constructor in a trace, with the
data and the messages. -/
def constructed {V : Type} : List (Event V) → List (Value × JSObject × Value)
  | [] => []
  | Event.construct data rules messages :: rest => (data, rules, messages) :: constructed rest
  | _ :: rest => constructed rest

/-- The names in `schema.activeRules`; none when the attribute is undefined. -/
def activeNames (schema : Schema) : List String := schema.activeRules.getD []

/-- The schemas that `createInactiveSchema(rules, messages, callback)` can become
through calls of `activateRule` and `createValidator`. -/
inductive Reachable {V : Type} (env : Env V) (rules : JSObject) (messages callback : Value) :
    Schema → Prop where
  | created : Reachable env rules messages callback (createInactiveSchema rules messages callback)
  | activated {schema : Schema} (fieldName : String) :
      Reachable env rules messages callback schema →
      Reachable env rules messages callback (activateRule schema fieldName)
  | validated {schema : Schema} (data : Value) (forceActive : Bool) :
      Reachable env rules messages callback schema →
      Reachable env rules messages callback (createValidator env data schema forceActive).schema

/-- The `callback` calls of a trace, each with the value passed to `callback`. -/
def callbacks {V : Type} : List (Event V) → List JSObject
  | [] => []
  | Event.callback errors :: rest => errors :: callbacks rest
  | _ :: rest => callbacks rest

/-- The same engine with its two handlers exchanged: every handler call it makes
to `passes` goes to `fails` and the other way round. -/
def flipHandlers {V : Type} (env : Env V) : Env V :=
  { env with checkAsync := fun v => (env.checkAsync v).map (fun handler => (!handler.1, handler.2)) }

/-- The engine as far as it has run when `checkAsync` returns: of the handler
calls it makes for `v.checkAsync(passes, fails)`, the first `early v` are made
before `checkAsync` returns and the others later. -/
def beforeReturn {V : Type} (env : Env V) (early : V → Nat) : Env V :=
  { env with checkAsync := fun v => (env.checkAsync v).take (early v) }

/-- The calls made within the call frame of `validate`. The last statement of
`validate` is `validator.checkAsync(getErrors, getErrors)` and nothing in
`validate` defers a call, so the frame ends when `checkAsync` returns. -/
def validateFrame {V : Type} (env : Env V) (early : V → Nat) (data : Value) (schema : Schema)
    (options : Options) : List (Event V) :=
  (validate (beforeReturn env early) data schema options).trace

/-- An engine whose validators keep the rules they were built from (`rulesOf`),
through the calls of the caller's functions and through the check, and that
reports no error for a field that has no rule. -/
structure KeepsRules {V : Type} (env : Env V) (rulesOf : V → JSObject) : Prop where
  built : ∀ data rules messages v, env.construct data rules messages = .ok v → rulesOf v = rules
  called : ∀ fn v v1, env.call fn v = .ok v1 → rulesOf v1 = rulesOf v
  checked : ∀ v handler, handler ∈ env.checkAsync v → rulesOf handler.2 = rulesOf v
  silent : ∀ v name, (rulesOf v).has name = false → env.errorsGet v name = Value.array []

/-- A sequence of `activateRule` calls on a schema, one for each name in turn. -/
def activateAll (schema : Schema) (names : List String) : Schema :=
  names.foldl activateRule schema

/-- The engine's constructor or the schema's callback hook throws `e` in
`createValidator(data, schema, forceActive)`. -/
def Faults {V : Type} (env : Env V) (data : Value) (schema : Schema) (forceActive : Bool)
    (e : Fault) : Prop :=
  env.construct data (selectRules schema forceActive).2 schema.messages = .error e ∨
  ∃ v, env.construct data (selectRules schema forceActive).2 schema.messages = .ok v ∧
    typeOf schema.callback = "function" ∧ env.call schema.callback v = .error e

/-- The schemas that `start` can become through later calls of `activateRule` and
`createValidator`. -/
inductive Later {V : Type} (env : Env V) (start : Schema) : Schema → Prop where
  | now : Later env start start
  | activated {schema : Schema} (fieldName : String) :
      Later env start schema → Later env start (activateRule schema fieldName)
  | validated {schema : Schema} (data : Value) (forceActive : Bool) :
      Later env start schema →
      Later env start (createValidator env data schema forceActive).schema

/-! ## Fixtures, after `tests/strategySpec.js` -/

/-- The rules of the test suite. -/
def testRules : JSObject :=
  JSObject.ofList [("name", .string "required"), ("email", .string "required|email"),
    ("confirm_email", .string "required|email")]

/-- The data of the test suite, kept by reference. -/
def testData : Value := .object 1

/-- The messages of the test suite, kept by reference. -/
def testMessages : Value := .object 2

/-- The spy `schemaCallback` of the test suite. -/
def schemaCallback : Value := .function 3

/-- An engine whose validator is the rules object it was built from and that
reports no error; the functions of the caller leave the validator as it is. -/
def quietEnv : Env JSObject where
  construct := fun _ rules _ => .ok rules
  call := fun _ validator => .ok validator
  checkAsync := fun validator => [(true, validator)]
  errorsGet := fun _ _ => .array []
  errorsAll := fun _ => JSObject.empty

/-- Errors of an earlier pass, as `options.prevErrors`. -/
def staleErrors : JSObject :=
  JSObject.ofList [("name", .array ["The name field is required."]), ("email", .array ["stale"])]

/-- An engine that finds every field with a rule invalid: its validator is the
rules object it was built from, the pass fails as soon as there is a rule, and
every field with a rule has the one error message `invalid`. -/
def strictEnv : Env JSObject where
  construct := fun _ rules _ => .ok rules
  call := fun _ validator => .ok validator
  checkAsync := fun validator => [(validator.keys.isEmpty, validator)]
  errorsGet := fun validator name =>
    if validator.has name then .array ["invalid"] else .array []
  errorsAll := fun validator =>
    JSObject.ofList (validator.keys.map (fun name => (name, Value.array ["invalid"])))

/-- What the engine throws on malformed rules. -/
def malformedRules : Fault := ⟨.string "malformed rules"⟩

/-- What a schema callback throws. -/
def hookFailure : Fault := ⟨.string "hook failed"⟩

/-- An engine whose constructor throws. -/
def brokenEnv : Env JSObject :=
  { strictEnv with construct := fun _ _ _ => .error malformedRules }

/-- The engine `strictEnv` with a caller whose functions throw. -/
def throwingHookEnv : Env JSObject :=
  { strictEnv with call := fun _ _ => .error hookFailure }

end Strategy

/-! ## Lemmas on arrays and objects -/

namespace Strategy

theorem indexOfFrom_eq_neg_one (x : String) (xs : List String) (i : Nat) :
    indexOfFrom x xs i = -1 ↔ x ∉ xs := by
  induction xs generalizing i with
  | nil => simp [indexOfFrom]
  | cons y ys ih =>
    by_cases h : y = x
    · subst h
      simp only [indexOfFrom, if_true, List.mem_cons, true_or, not_true_eq_false, iff_false]
      omega
    · have h2 : ¬ x = y := fun e => h e.symm
      simp only [indexOfFrom, if_neg h, List.mem_cons, h2, false_or]
      exact ih (i + 1)

theorem indexOf_eq_neg_one (xs : List String) (x : String) : indexOf xs x = -1 ↔ x ∉ xs :=
  indexOfFrom_eq_neg_one x xs 0

theorem activateRule_absent (schema : Schema) (rule : String) (h : schema.activeRules = none) :
    activateRule schema rule = schema := by
  simp [activateRule, h]

theorem activateRule_new (schema : Schema) (rule : String) (active : List String)
    (h : schema.activeRules = some active) (hr : rule ∉ active) :
    activateRule schema rule = { schema with activeRules := some (active ++ [rule]) } := by
  simp [activateRule, h, (indexOf_eq_neg_one active rule).2 hr, push]

theorem activateRule_old (schema : Schema) (rule : String) (active : List String)
    (h : schema.activeRules = some active) (hr : rule ∈ active) :
    activateRule schema rule = schema := by
  have hne : ¬ indexOf active rule = -1 := fun e => (indexOf_eq_neg_one active rule).1 e hr
  simp [activateRule, h, hne]

theorem JSObject.eq_of_entries {a b : JSObject} (h : a.entries = b.entries) : a = b := by
  cases a; cases b; cases h; rfl

theorem find?_setEntries (es : List (String × Value)) (k : String) (v : Value) (x : String) :
    ((setEntries es k v).find? (fun e => e.1 = x)).map Prod.snd =
      if x = k then some v else (es.find? (fun e => e.1 = x)).map Prod.snd := by
  induction es with
  | nil =>
    by_cases hx : x = k
    · simp [setEntries, hx]
    · have hx2 : ¬ k = x := fun e => hx e.symm
      simp [setEntries, hx, hx2]
  | cons e rest ih =>
    obtain ⟨k', v'⟩ := e
    by_cases hk : k' = k
    · subst hk
      by_cases hx : x = k'
      · simp [setEntries, hx]
      · have hx2 : ¬ k' = x := fun e => hx e.symm
        simp [setEntries, hx, hx2]
    · by_cases hx : k' = x
      · have hxk : ¬ x = k := fun e => hk (hx.trans e)
        simp [setEntries, hk, hx, hxk]
      · simp only [setEntries, if_neg hk, List.find?_cons, hx, decide_False]
        exact ih

theorem JSObject.set_proto (o : JSObject) (v : Value) : o.set "__proto__" v = o := by
  simp [JSObject.set]

theorem JSObject.entries_set (o : JSObject) (k : String) (v : Value) (hk : k ≠ "__proto__") :
    (o.set k v).entries = setEntries o.entries k v := by
  simp [JSObject.set, hk]

theorem JSObject.find?_set (o : JSObject) (k : String) (v : Value) (x : String) :
    (o.set k v).find? x =
      if k = "__proto__" then o.find? x else if x = k then some v else o.find? x := by
  by_cases hk : k = "__proto__"
  · subst hk
    rw [JSObject.set_proto, if_pos rfl]
  · rw [if_neg hk]
    show ((o.set k v).entries.find? (fun e => e.1 = x)).map Prod.snd = _
    rw [JSObject.entries_set o k v hk]
    exact find?_setEntries o.entries k v x

theorem JSObject.find?_set_of_ne (o : JSObject) (k : String) (v : Value) (x : String)
    (hk : k ≠ "__proto__") :
    (o.set k v).find? x = if x = k then some v else o.find? x := by
  rw [JSObject.find?_set, if_neg hk]

theorem JSObject.find?_empty (x : String) : JSObject.empty.find? x = none := rfl

theorem JSObject.has_iff_mem_keys (o : JSObject) (x : String) : o.has x = true ↔ x ∈ o.keys := by
  obtain ⟨es, hnd, hplain⟩ := o
  simp only [JSObject.has, JSObject.find?, JSObject.keys]
  clear hnd hplain
  induction es with
  | nil => simp
  | cons e rest ih =>
    obtain ⟨k', v'⟩ := e
    by_cases hx : k' = x
    · simp [hx]
    · have hx2 : ¬ x = k' := fun e => hx e.symm
      simp only [List.find?_cons, hx, decide_False, List.map_cons, List.mem_cons, hx2, false_or]
      exact ih

theorem JSObject.find?_of_mem_keys (o : JSObject) (k : String) (hk : k ∈ o.keys) :
    o.find? k = some (o.get k) := by
  have hhas := (JSObject.has_iff_mem_keys o k).2 hk
  simp only [JSObject.has, Option.isSome_iff_exists] at hhas
  obtain ⟨v, hv⟩ := hhas
  simp [JSObject.get, hv]

theorem JSObject.find?_of_not_mem_keys (o : JSObject) (k : String) (hk : k ∉ o.keys) :
    o.find? k = none := by
  cases hf : o.find? k with
  | none => rfl
  | some v =>
    exfalso
    apply hk
    apply (JSObject.has_iff_mem_keys o k).1
    simp [JSObject.has, hf]

/-- The loop of `createValidator` over the active names, read at one name. -/
theorem find?_foldl_set (source : JSObject) (active : List String) (acc : JSObject)
    (x : String) :
    (active.foldl (fun rules ruleName => rules.set ruleName (source.get ruleName)) acc).find? x =
      if x ∈ active ∧ x ≠ "__proto__" then some (source.get x) else acc.find? x := by
  induction active generalizing acc with
  | nil => simp
  | cons a rest ih =>
    rw [List.foldl_cons, ih, JSObject.find?_set]
    by_cases hx : x = "__proto__"
    · have h1 : ¬ (x ∈ rest ∧ x ≠ "__proto__") := fun h => h.2 hx
      have h2 : ¬ (x ∈ a :: rest ∧ x ≠ "__proto__") := fun h => h.2 hx
      rw [if_neg h1, if_neg h2]
      by_cases ha : a = "__proto__"
      · rw [if_pos ha]
      · have hxa : ¬ x = a := fun e => ha (e ▸ hx)
        rw [if_neg ha, if_neg hxa]
    · by_cases hr : x ∈ rest
      · rw [if_pos ⟨hr, hx⟩, if_pos ⟨List.mem_cons_of_mem _ hr, hx⟩]
      · have h1 : ¬ (x ∈ rest ∧ x ≠ "__proto__") := fun h => hr h.1
        rw [if_neg h1]
        by_cases hxa : x = a
        · have ha : ¬ a = "__proto__" := fun e => hx (hxa.trans e)
          rw [if_neg ha, if_pos hxa, if_pos ⟨by rw [hxa]; exact List.mem_cons_self _ _, hx⟩,
            hxa]
        · have h2 : ¬ (x ∈ a :: rest ∧ x ≠ "__proto__") := by
            rintro ⟨hm, _⟩
            rcases List.mem_cons.1 hm with h | h
            · exact hxa h
            · exact hr h
          rw [if_neg h2]
          by_cases ha : a = "__proto__"
          · rw [if_pos ha]
          · rw [if_neg ha, if_neg hxa]

theorem setEntries_new (pre : List (String × Value)) (k : String) (v : Value)
    (h : k ∉ pre.map Prod.fst) : setEntries pre k v = pre ++ [(k, v)] := by
  induction pre with
  | nil => rfl
  | cons e rest ih =>
    obtain ⟨k', v'⟩ := e
    simp only [List.map_cons, List.mem_cons, not_or] at h
    have hk : ¬ k' = k := fun e => h.1 e.symm
    simp only [setEntries, if_neg hk, List.cons_append, ih h.2]

theorem find?_of_mem (es : List (String × Value)) (hnd : (es.map Prod.fst).Nodup)
    (k : String) (v : Value) (h : (k, v) ∈ es) :
    (es.find? (fun e => e.1 = k)).map Prod.snd = some v := by
  induction es with
  | nil => simp at h
  | cons e rest ih =>
    obtain ⟨k', v'⟩ := e
    rw [List.map_cons, List.nodup_cons] at hnd
    rcases List.mem_cons.1 h with heq | hmem
    · cases heq
      simp
    · have hk : ¬ k' = k := by
        intro e
        subst e
        exact hnd.1 (List.mem_map.2 ⟨(k', v), hmem, rfl⟩)
      simp only [List.find?_cons, hk, decide_False]
      exact ih hnd.2 hmem

theorem foldl_setEntries_keys (f : String → Value) (suf pre : List (String × Value))
    (hf : ∀ e ∈ suf, f e.1 = e.2) (hnd : ((pre ++ suf).map Prod.fst).Nodup) :
    (suf.map Prod.fst).foldl (fun es n => setEntries es n (f n)) pre = pre ++ suf := by
  induction suf generalizing pre with
  | nil => simp
  | cons e rest ih =>
    obtain ⟨k, v⟩ := e
    have hk : k ∉ pre.map Prod.fst := by
      rw [List.map_append, List.nodup_append] at hnd
      intro hmem
      exact hnd.2.2 hmem (by simp)
    have hv : f k = v := hf (k, v) (by simp)
    rw [List.map_cons, List.foldl_cons, hv, setEntries_new pre k v hk,
      ih (pre ++ [(k, v)]) (fun e he => hf e (List.mem_cons_of_mem _ he)) (by simpa using hnd)]
    simp

theorem entries_foldl_set (f : String → Value) (names : List String) (acc : JSObject)
    (hnames : ∀ n, n ∈ names → n ≠ "__proto__") :
    (names.foldl (fun rules ruleName => rules.set ruleName (f ruleName)) acc).entries =
      names.foldl (fun es n => setEntries es n (f n)) acc.entries := by
  induction names generalizing acc with
  | nil => rfl
  | cons a rest ih =>
    rw [List.foldl_cons, ih _ (fun n hn => hnames n (List.mem_cons_of_mem _ hn)),
      List.foldl_cons, JSObject.entries_set acc a (f a) (hnames a (List.mem_cons_self _ _))]

/-- Copying every own property of an object into `{}`, in the order of
`Object.keys`, gives the object again. -/
theorem foldl_set_keys (source : JSObject) :
    source.keys.foldl (fun rules ruleName => rules.set ruleName (source.get ruleName))
      JSObject.empty = source := by
  apply JSObject.eq_of_entries
  rw [entries_foldl_set (fun n => source.get n) source.keys JSObject.empty
    (fun n hn e => source.plain (e ▸ hn))]
  have h := foldl_setEntries_keys (fun n => source.get n) source.entries []
    (fun e he => by
      have := find?_of_mem source.entries source.nodup e.1 e.2 he
      simp only [JSObject.get, JSObject.find?, this, Option.getD_some])
    (by simpa using source.nodup)
  simpa [JSObject.keys, JSObject.empty] using h

/-! ## The validator factory, step by step -/

theorem selectRules_absent (schema : Schema) (forceActive : Bool)
    (h : schema.activeRules = none) : selectRules schema forceActive = (schema, schema.rules) := by
  simp [selectRules, h]

theorem selectRules_forced (schema : Schema) (active : List String)
    (h : schema.activeRules = some active) :
    selectRules schema true =
      ({ schema with activeRules := some schema.rules.keys }, schema.rules) := by
  simp only [selectRules, h, if_true]
  rw [foldl_set_keys]

theorem selectRules_gated (schema : Schema) (active : List String)
    (h : schema.activeRules = some active) :
    selectRules schema false =
      (schema, active.foldl
        (fun rules ruleName => rules.set ruleName (schema.rules.get ruleName)) JSObject.empty) := by
  simp [selectRules, h]

theorem selectRules_messages (schema : Schema) (forceActive : Bool) :
    (selectRules schema forceActive).1.messages = schema.messages := by
  cases h : schema.activeRules with
  | none => rw [selectRules_absent schema forceActive h]
  | some active =>
    cases forceActive with
    | true => rw [selectRules_forced schema active h]
    | false => rw [selectRules_gated schema active h]

theorem createValidator_schema {V : Type} (env : Env V) (data : Value) (schema : Schema)
    (forceActive : Bool) :
    (createValidator env data schema forceActive).schema = (selectRules schema forceActive).1 := by
  simp only [createValidator]
  split
  · rfl
  · split <;> rfl

theorem createValidator_constructed {V : Type} (env : Env V) (data : Value) (schema : Schema)
    (forceActive : Bool) :
    constructed (createValidator env data schema forceActive).trace =
      [(data, (selectRules schema forceActive).2, schema.messages)] := by
  simp only [createValidator, selectRules_messages]
  split
  · rfl
  · split <;> rfl

theorem selectRules_callback (schema : Schema) (forceActive : Bool) :
    (selectRules schema forceActive).1.callback = schema.callback := by
  cases h : schema.activeRules with
  | none => rw [selectRules_absent schema forceActive h]
  | some active =>
    cases forceActive with
    | true => rw [selectRules_forced schema active h]
    | false => rw [selectRules_gated schema active h]

theorem validate_schema {V : Type} (env : Env V) (data : Value) (schema : Schema)
    (options : Options) :
    (validate env data schema options).schema =
      (createValidator env data schema (!truthy options.key)).schema := by
  simp only [validate]
  split <;> rfl

theorem validateServer_schema {V : Type} (env : Env V) (data : Value) (schema : Schema) :
    (validateServer env data schema).schema = (createValidator env data schema true).schema := by
  simp only [validateServer]
  split <;> rfl

theorem hookCalls_append {V : Type} (xs ys : List (Event V)) :
    hookCalls (xs ++ ys) = hookCalls xs ++ hookCalls ys := by
  induction xs with
  | nil => rfl
  | cons e rest ih => cases e <;> simp [hookCalls, ih]

theorem hookCalls_handled {V : Type} (env : Env V) (key : Option String)
    (handlers : List (Bool × V)) (acc : JSObject × List (Event V)) (h : hookCalls acc.2 = []) :
    hookCalls (handlers.foldl
      (fun (acc : JSObject × List (Event V)) handler =>
        ((getErrors env key acc.1 handler.2).1,
          acc.2 ++ [Event.callback (getErrors env key acc.1 handler.2).2]))
      acc).2 = [] := by
  induction handlers generalizing acc with
  | nil => exact h
  | cons x rest ih =>
    rw [List.foldl_cons]
    apply ih
    rw [hookCalls_append, h]
    rfl

theorem validate_hookCalls {V : Type} (env : Env V) (data : Value) (schema : Schema)
    (options : Options) :
    hookCalls (validate env data schema options).trace =
      hookCalls (createValidator env data schema (!truthy options.key)).trace := by
  simp only [validate]
  split
  · rfl
  · rename_i validator _
    have h0 := hookCalls_handled env options.key (env.checkAsync validator)
      (options.prevErrors, []) rfl
    simp only [hookCalls_append, hookCalls, h0, List.append_nil]

theorem validateServer_hookCalls {V : Type} (env : Env V) (data : Value) (schema : Schema) :
    hookCalls (validateServer env data schema).trace =
      hookCalls (createValidator env data schema true).trace := by
  simp only [validateServer]
  split
  · rfl
  · simp [hookCalls_append, hookCalls]

/-! ## The schema builder -/

/-- C1: `createSchema(rules, messages, callback)` returns a schema whose rules,
messages and callback are the three arguments, whatever they are, and whose
`activeRules` is absent. -/
theorem createSchema_verbatim (rules : JSObject) (messages callback : Value) :
    (createSchema rules messages callback).rules = rules ∧
    (createSchema rules messages callback).messages = messages ∧
    (createSchema rules messages callback).callback = callback ∧
    (createSchema rules messages callback).activeRules = none ∧
    (createSchema rules Value.undefined Value.undefined).messages = Value.undefined ∧
    (createSchema rules Value.undefined Value.undefined).callback = Value.undefined :=
  ⟨rfl, rfl, rfl, rfl, rfl, rfl⟩

/-- C2: `createInactiveSchema(rules, messages, callback)` is the schema of
`createSchema` on the same arguments with one attribute added: `activeRules`,
present and equal to the empty sequence. -/
theorem createInactiveSchema_eq (rules : JSObject) (messages callback : Value) :
    createInactiveSchema rules messages callback =
      { createSchema rules messages callback with activeRules := some [] } ∧
    (createInactiveSchema rules messages callback).rules =
      (createSchema rules messages callback).rules ∧
    (createInactiveSchema rules messages callback).messages =
      (createSchema rules messages callback).messages ∧
    (createInactiveSchema rules messages callback).callback =
      (createSchema rules messages callback).callback ∧
    (createInactiveSchema rules messages callback).activeRules = some [] :=
  ⟨rfl, rfl, rfl, rfl, rfl⟩

/-- C3: `activateRule(schema, fieldName)` changes `schema.activeRules` if and only
if `activeRules` is defined and `fieldName` is not in it; the new `activeRules` is
then the old sequence with `fieldName` appended and nothing else of the schema
changes; otherwise the schema is left as it was, and so is every schema built by
`createSchema`, whose `activeRules` stays absent. -/
theorem activateRule_changes_iff (schema : Schema) (fieldName : String) :
    ((activateRule schema fieldName).activeRules ≠ schema.activeRules ↔
      ∃ active, schema.activeRules = some active ∧ fieldName ∉ active) ∧
    (∀ active, schema.activeRules = some active → fieldName ∉ active →
      activateRule schema fieldName =
        { schema with activeRules := some (active ++ [fieldName]) }) ∧
    ((¬ ∃ active, schema.activeRules = some active ∧ fieldName ∉ active) →
      activateRule schema fieldName = schema) ∧
    (∀ rules messages callback,
      activateRule (createSchema rules messages callback) fieldName =
        createSchema rules messages callback ∧
      (activateRule (createSchema rules messages callback) fieldName).activeRules = none) := by
  refine ⟨?_, fun active h hr => activateRule_new schema fieldName active h hr, ?_, ?_⟩
  · constructor
    · intro hne
      cases h : schema.activeRules with
      | none => exact absurd (by rw [activateRule_absent schema fieldName h]) hne
      | some active =>
        refine ⟨active, rfl, fun hr => hne ?_⟩
        rw [activateRule_old schema fieldName active h hr, h]
    · rintro ⟨active, h, hr⟩
      rw [activateRule_new schema fieldName active h hr, h]
      simp
  · intro hno
    cases h : schema.activeRules with
    | none => exact activateRule_absent schema fieldName h
    | some active =>
      by_cases hr : fieldName ∈ active
      · exact activateRule_old schema fieldName active h hr
      · exact absurd ⟨active, h, hr⟩ hno
  · intro rules messages callback
    exact ⟨rfl, rfl⟩

/-- C4: activating the same field twice in a row leaves the schema as one
activation leaves it. -/
theorem activateRule_idempotent (schema : Schema) (fieldName : String) :
    activateRule (activateRule schema fieldName) fieldName = activateRule schema fieldName := by
  cases h : schema.activeRules with
  | none => rw [activateRule_absent schema fieldName h, activateRule_absent schema fieldName h]
  | some active =>
    by_cases hr : fieldName ∈ active
    · rw [activateRule_old schema fieldName active h hr,
        activateRule_old schema fieldName active h hr]
    · rw [activateRule_new schema fieldName active h hr]
      exact activateRule_old _ fieldName (active ++ [fieldName]) rfl (by simp)

/-! ## Activation state -/

/-- C5: on every schema reached from `createInactiveSchema` by calls of
`activateRule` and of `createValidator` (forced or not), `activeRules` is present
and holds no field name twice. -/
theorem reachable_activeRules_nodup {V : Type} (env : Env V) (rules : JSObject)
    (messages callback : Value) (schema : Schema)
    (h : Reachable env rules messages callback schema) :
    ∃ active, schema.activeRules = some active ∧ active.Nodup := by
  induction h with
  | created => exact ⟨[], rfl, List.nodup_nil⟩
  | @activated schema fieldName _ ih =>
    obtain ⟨active, ha, hnd⟩ := ih
    by_cases hr : fieldName ∈ active
    · rw [activateRule_old schema fieldName active ha hr]
      exact ⟨active, ha, hnd⟩
    · rw [activateRule_new schema fieldName active ha hr]
      exact ⟨active ++ [fieldName], rfl,
        List.nodup_append.2 ⟨hnd, List.nodup_singleton _, by
          intro a h1 h2
          rw [List.mem_singleton] at h2
          exact hr (h2 ▸ h1)⟩⟩
  | @validated schema data forceActive _ ih =>
    obtain ⟨active, ha, hnd⟩ := ih
    rw [createValidator_schema]
    cases forceActive with
    | true =>
      rw [selectRules_forced schema active ha]
      exact ⟨schema.rules.keys, rfl, schema.rules.nodup⟩
    | false =>
      rw [selectRules_gated schema active ha]
      exact ⟨active, ha, hnd⟩

theorem reachable_activeRules_nodup_witness :
    Reachable quietEnv testRules testMessages schemaCallback
      (createValidator quietEnv testData
        (activateRule (activateRule
          (createInactiveSchema testRules testMessages schemaCallback) "email") "email")
        true).schema ∧
    ∃ active,
      (createValidator quietEnv testData
        (activateRule (activateRule
          (createInactiveSchema testRules testMessages schemaCallback) "email") "email")
        true).schema.activeRules = some active ∧ active.Nodup :=
  ⟨.validated testData true (.activated "email" (.activated "email" .created)),
    reachable_activeRules_nodup quietEnv testRules testMessages schemaCallback _
      (.validated testData true (.activated "email" (.activated "email" .created)))⟩

/-- C6, as stated, fails: a name that was activated without being a key of
`schema.rules` is dropped by a forced `createValidator`. -/
theorem forced_createValidator_drops_unknown_name :
    (activateRule (createInactiveSchema testRules testMessages schemaCallback)
      "ghost").activeRules = some ["ghost"] ∧
    (createValidator quietEnv testData
      (activateRule (createInactiveSchema testRules testMessages schemaCallback) "ghost")
      true).schema.activeRules = some ["name", "email", "confirm_email"] ∧
    "ghost" ∉ ["name", "email", "confirm_email"] := by
  decide

/-- C6, amended: on a schema with `activeRules` present, every name in
`activeRules` is still in it after `activateRule`, after `createValidator` with
`forceActive` false and after a `validate` with a truthy `options.key`; after
`createValidator` with `forceActive` true, after any `validate` and after
`validateServer`, every name of `activeRules` that is a key of `schema.rules`
is still in it. -/
theorem activeRules_kept {V : Type} (env : Env V) (schema : Schema) (active : List String)
    (x : String) (h : schema.activeRules = some active) (hx : x ∈ active) :
    (∀ fieldName, x ∈ activeNames (activateRule schema fieldName)) ∧
    (∀ data, x ∈ activeNames (createValidator env data schema false).schema) ∧
    (∀ data options, truthy options.key = true →
      x ∈ activeNames (validate env data schema options).schema) ∧
    (x ∈ schema.rules.keys →
      (∀ data, x ∈ activeNames (createValidator env data schema true).schema) ∧
      (∀ data options, x ∈ activeNames (validate env data schema options).schema) ∧
      (∀ data, x ∈ activeNames (validateServer env data schema).schema)) := by
  have hgated : ∀ data, x ∈ activeNames (createValidator env data schema false).schema := by
    intro data
    rw [createValidator_schema, selectRules_gated schema active h]
    simpa [activeNames, h] using hx
  have hforced : x ∈ schema.rules.keys →
      ∀ data, x ∈ activeNames (createValidator env data schema true).schema := by
    intro hk data
    rw [createValidator_schema, selectRules_forced schema active h]
    simpa [activeNames] using hk
  refine ⟨fun fieldName => ?_, hgated, fun data options hkey => ?_, fun hk =>
    ⟨hforced hk, fun data options => ?_, fun data => ?_⟩⟩
  · by_cases hr : fieldName ∈ active
    · rw [activateRule_old schema fieldName active h hr]
      simpa [activeNames, h] using hx
    · rw [activateRule_new schema fieldName active h hr]
      simp [activeNames, hx]
  · rw [validate_schema, hkey]
    exact hgated data
  · rw [validate_schema]
    cases truthy options.key with
    | true => exact hgated data
    | false => exact hforced hk data
  · rw [validateServer_schema]
    exact hforced hk data

theorem activeRules_kept_witness :
    "email" ∈ activeNames (createValidator quietEnv testData
      (activateRule (createInactiveSchema testRules testMessages schemaCallback) "email")
      true).schema :=
  ((activeRules_kept quietEnv
    (activateRule (createInactiveSchema testRules testMessages schemaCallback) "email")
    ["email"] "email" (by decide) (by decide)).2.2.2 (by decide)).1 testData

/-! ## The validator factory -/

/-- C7: on a schema whose `activeRules` is absent, `createValidator` with either
value of `forceActive` hands the engine the given data, `schema.rules` as it is
and `schema.messages`, and leaves the schema as it was, `activeRules` absent. -/
theorem createValidator_ungated {V : Type} (env : Env V) (data : Value) (schema : Schema)
    (forceActive : Bool) (h : schema.activeRules = none) :
    constructed (createValidator env data schema forceActive).trace =
      [(data, schema.rules, schema.messages)] ∧
    (createValidator env data schema forceActive).schema = schema ∧
    (createValidator env data schema forceActive).schema.activeRules = none := by
  rw [createValidator_constructed, createValidator_schema,
    selectRules_absent schema forceActive h]
  exact ⟨rfl, rfl, h⟩

theorem createValidator_ungated_witness :
    constructed (createValidator quietEnv testData
      (createSchema testRules testMessages schemaCallback) true).trace =
      [(testData, testRules, testMessages)] ∧
    (createValidator quietEnv testData
      (createSchema testRules testMessages schemaCallback) true).schema =
      createSchema testRules testMessages schemaCallback ∧
    (createValidator quietEnv testData
      (createSchema testRules testMessages schemaCallback) true).schema.activeRules = none :=
  createValidator_ungated quietEnv testData (createSchema testRules testMessages schemaCallback)
    true rfl

/-- C8: on a schema with `activeRules` present, whatever it holds,
`createValidator` with `forceActive` true hands the engine a rules object equal
to `schema.rules`, and afterwards `schema.activeRules` is the sequence
`Object.keys(schema.rules)`, nothing else of the schema being changed. -/
theorem createValidator_forced {V : Type} (env : Env V) (data : Value) (schema : Schema)
    (active : List String) (h : schema.activeRules = some active) :
    constructed (createValidator env data schema true).trace =
      [(data, schema.rules, schema.messages)] ∧
    (createValidator env data schema true).schema.activeRules = some schema.rules.keys ∧
    (createValidator env data schema true).schema =
      { schema with activeRules := some schema.rules.keys } := by
  rw [createValidator_constructed, createValidator_schema, selectRules_forced schema active h]
  exact ⟨rfl, rfl, rfl⟩

theorem createValidator_forced_witness :
    constructed (createValidator quietEnv testData
      (activateRule (createInactiveSchema testRules testMessages schemaCallback) "email")
      true).trace = [(testData, testRules, testMessages)] ∧
    (createValidator quietEnv testData
      (activateRule (createInactiveSchema testRules testMessages schemaCallback) "email")
      true).schema.activeRules = some ["name", "email", "confirm_email"] :=
  ⟨(createValidator_forced quietEnv testData
      (activateRule (createInactiveSchema testRules testMessages schemaCallback) "email")
      ["email"] (by decide)).1,
    (createValidator_forced quietEnv testData
      (activateRule (createInactiveSchema testRules testMessages schemaCallback) "email")
      ["email"] (by decide)).2.1⟩

/-- C9, as stated, fails: with `forceActive` false and the name `ghost` in
`activeRules`, which is not a key of `schema.rules`, the rules object handed to
the engine has the key `ghost`, with the value `undefined`. -/
theorem gated_rules_hold_unknown_name :
    constructed (createValidator quietEnv testData
      (activateRule (createInactiveSchema testRules testMessages schemaCallback) "ghost")
      false).trace =
      [(testData, JSObject.ofList [("ghost", Value.undefined)], testMessages)] ∧
    (JSObject.ofList [("ghost", Value.undefined)]).has "ghost" = true ∧
    testRules.has "ghost" = false := by
  decide

/-- C9, amended: on a schema with `activeRules` present and `forceActive` false,
whatever `activeRules` holds, a key of `schema.rules` is a key of the rules
object handed to the engine if and only if it is in `activeRules`, and it then
maps to the same rule expression as in `schema.rules`; when every name in
`activeRules` is a key of `schema.rules`, the object handed over is exactly the
subset of `schema.rules` whose keys are in `activeRules`. -/
theorem createValidator_gated {V : Type} (env : Env V) (data : Value) (schema : Schema)
    (active : List String) (h : schema.activeRules = some active) :
    ∃ rules, constructed (createValidator env data schema false).trace =
        [(data, rules, schema.messages)] ∧
      (∀ k, k ∈ schema.rules.keys → (rules.has k = true ↔ k ∈ active)) ∧
      (∀ k, k ∈ schema.rules.keys → k ∈ active → rules.find? k = schema.rules.find? k) ∧
      ((∀ k, k ∈ active → k ∈ schema.rules.keys) →
        ∀ k, (rules.has k = true ↔ schema.rules.has k = true ∧ k ∈ active) ∧
          rules.find? k = if k ∈ active then schema.rules.find? k else none) := by
  have hfind : ∀ k, k ∈ schema.rules.keys →
      (active.foldl (fun rules ruleName => rules.set ruleName (schema.rules.get ruleName))
        JSObject.empty).find? k = if k ∈ active then schema.rules.find? k else none := by
    intro k hk
    have hne : k ≠ "__proto__" := fun e => schema.rules.plain (e ▸ hk)
    rw [find?_foldl_set]
    by_cases hin : k ∈ active
    · rw [if_pos ⟨hin, hne⟩, if_pos hin, JSObject.find?_of_mem_keys _ k hk]
    · rw [if_neg (fun hc => hin hc.1), if_neg hin]
      rfl
  refine ⟨_, by rw [createValidator_constructed, selectRules_gated schema active h],
    fun k hk => ?_, fun k hk hin => ?_, fun hsub k => ?_⟩
  · have hsome := JSObject.find?_of_mem_keys schema.rules k hk
    simp only [JSObject.has, hfind k hk]
    by_cases hin : k ∈ active <;> simp [hin, hsome]
  · rw [hfind k hk, if_pos hin]
  · by_cases hk : k ∈ schema.rules.keys
    · have hsome := JSObject.find?_of_mem_keys schema.rules k hk
      have hhas := (JSObject.has_iff_mem_keys schema.rules k).2 hk
      refine ⟨?_, hfind k hk⟩
      simp only [JSObject.has, hfind k hk] at hhas ⊢
      by_cases hin : k ∈ active <;> simp [hin, hsome]
    · have hin : k ∉ active := fun hc => hk (hsub k hc)
      have hnone : (active.foldl
          (fun rules ruleName => rules.set ruleName (schema.rules.get ruleName))
          JSObject.empty).find? k = none := by
        rw [find?_foldl_set, if_neg (fun hc => hin hc.1)]
        rfl
      refine ⟨?_, by rw [hnone, if_neg hin]⟩
      simp only [JSObject.has, hnone]
      simp [hin]

theorem createValidator_gated_witness :
    ∃ rules, constructed (createValidator quietEnv testData
        (activateRule (createInactiveSchema testRules testMessages schemaCallback) "email")
        false).trace = [(testData, rules, testMessages)] ∧
      (∀ k, k ∈ testRules.keys → (rules.has k = true ↔ k ∈ ["email"])) ∧
      (∀ k, k ∈ testRules.keys → k ∈ ["email"] → rules.find? k = testRules.find? k) ∧
      ((∀ k, k ∈ ["email"] → k ∈ testRules.keys) →
        ∀ k, (rules.has k = true ↔ testRules.has k = true ∧ k ∈ ["email"]) ∧
          rules.find? k = if k ∈ ["email"] then testRules.find? k else none) :=
  createValidator_gated quietEnv testData
    (activateRule (createInactiveSchema testRules testMessages schemaCallback) "email")
    ["email"] (by decide)

/-- C10: when the engine builds a validator, `createValidator` calls
`schema.callback` exactly once if it is a function, with that validator, and
returns the validator as the call leaves it; it calls it zero times if it is not
a function and returns the validator. A `validate` or `validateServer` call makes
the hook calls of its one `createValidator` call and no other. -/
theorem createValidator_hook_once {V : Type} (env : Env V) (data : Value) (schema : Schema)
    (forceActive : Bool) (validator : V)
    (hbuilt : env.construct data (selectRules schema forceActive).2 schema.messages =
      .ok validator) :
    (typeOf schema.callback = "function" →
      hookCalls (createValidator env data schema forceActive).trace =
        [(schema.callback, validator)] ∧
      (createValidator env data schema forceActive).result =
        env.call schema.callback validator) ∧
    (typeOf schema.callback ≠ "function" →
      hookCalls (createValidator env data schema forceActive).trace = [] ∧
      (createValidator env data schema forceActive).result = .ok validator) ∧
    (∀ options : Options, (!truthy options.key) = forceActive →
      hookCalls (validate env data schema options).trace =
        hookCalls (createValidator env data schema forceActive).trace) ∧
    (forceActive = true →
      hookCalls (validateServer env data schema).trace =
        hookCalls (createValidator env data schema forceActive).trace) := by
  refine ⟨fun hfn => ?_, fun hfn => ?_, fun options hkey => ?_, fun hforce => ?_⟩
  · simp [createValidator, selectRules_messages, selectRules_callback, hbuilt, hfn, hookCalls]
  · simp [createValidator, selectRules_messages, selectRules_callback, hbuilt, hfn, hookCalls]
  · rw [validate_hookCalls, hkey]
  · rw [validateServer_hookCalls, hforce]

theorem createValidator_hook_once_witness :
    hookCalls (createValidator quietEnv testData
      (createInactiveSchema testRules testMessages schemaCallback) true).trace =
      [(schemaCallback, testRules)] ∧
    hookCalls (validateServer quietEnv testData
      (createInactiveSchema testRules testMessages schemaCallback)).trace =
      [(schemaCallback, testRules)] :=
  ⟨((createValidator_hook_once quietEnv testData
      (createInactiveSchema testRules testMessages schemaCallback) true testRules rfl).1 rfl).1,
    ((createValidator_hook_once quietEnv testData
      (createInactiveSchema testRules testMessages schemaCallback) true testRules
      rfl).2.2.2 rfl).trans
    ((createValidator_hook_once quietEnv testData
      (createInactiveSchema testRules testMessages schemaCallback) true testRules rfl).1 rfl).1⟩

/-! ## The validation runners, step by step -/

theorem selectRules_rules (schema : Schema) (forceActive : Bool) :
    (selectRules schema forceActive).1.rules = schema.rules := by
  cases h : schema.activeRules with
  | none => rw [selectRules_absent schema forceActive h]
  | some active =>
    cases forceActive with
    | true => rw [selectRules_forced schema active h]
    | false => rw [selectRules_gated schema active h]

theorem setEntries_twice (es : List (String × Value)) (k : String) (a b : Value) :
    setEntries (setEntries es k a) k b = setEntries es k b := by
  induction es with
  | nil => simp [setEntries]
  | cons e rest ih =>
    obtain ⟨k1, v1⟩ := e
    by_cases hk : k1 = k
    · simp [setEntries, hk]
    · simp [setEntries, hk, ih]

theorem JSObject.set_twice (o : JSObject) (k : String) (a b : Value) :
    (o.set k a).set k b = o.set k b := by
  by_cases hk : k = "__proto__"
  · subst hk
    simp only [JSObject.set_proto]
  · apply JSObject.eq_of_entries
    rw [JSObject.entries_set _ k b hk, JSObject.entries_set _ k a hk,
      JSObject.entries_set _ k b hk]
    exact setEntries_twice o.entries k a b

theorem getErrors_single {V : Type} (env : Env V) (name : String) (hname : name ≠ "")
    (prevErrors : JSObject) (v : V) :
    getErrors env (some name) prevErrors v =
      (prevErrors.set name (env.errorsGet v name), prevErrors.set name (env.errorsGet v name)) := by
  simp [getErrors, truthy, hname]

theorem getErrors_whole {V : Type} (env : Env V) (key : Option String)
    (hkey : truthy key = false) (prevErrors : JSObject) (v : V) :
    getErrors env key prevErrors v = (prevErrors, env.errorsAll v) := by
  cases key with
  | none => rfl
  | some name => simp [getErrors, hkey]

/-- A second run of `getErrors` does not see the first: the only entry of
`options.prevErrors` the first run wrote is the one the second run overwrites. -/
theorem getErrors_again {V : Type} (env : Env V) (key : Option String) (prevErrors : JSObject)
    (v w : V) :
    getErrors env key (getErrors env key prevErrors v).1 w = getErrors env key prevErrors w := by
  cases hk : truthy key with
  | false => simp only [getErrors_whole env key hk]
  | true =>
    cases key with
    | none => simp [truthy] at hk
    | some name =>
      have hname : name ≠ "" := by simpa [truthy] using hk
      simp only [getErrors_single env name hname, JSObject.set_twice]

theorem callbacks_append {V : Type} (xs ys : List (Event V)) :
    callbacks (xs ++ ys) = callbacks xs ++ callbacks ys := by
  induction xs with
  | nil => rfl
  | cons e rest ih => cases e <;> simp [callbacks, ih]

theorem constructed_append {V : Type} (xs ys : List (Event V)) :
    constructed (xs ++ ys) = constructed xs ++ constructed ys := by
  induction xs with
  | nil => rfl
  | cons e rest ih => cases e <;> simp [constructed, ih]

theorem createValidator_callbacks {V : Type} (env : Env V) (data : Value) (schema : Schema)
    (forceActive : Bool) : callbacks (createValidator env data schema forceActive).trace = [] := by
  simp only [createValidator]
  split
  · rfl
  · split <;> rfl

theorem handled_callbacks {V : Type} (env : Env V) (key : Option String)
    (handlers : List (Bool × V)) (acc : JSObject × List (Event V)) :
    callbacks (handlers.foldl
      (fun (acc : JSObject × List (Event V)) handler =>
        ((getErrors env key acc.1 handler.2).1,
          acc.2 ++ [Event.callback (getErrors env key acc.1 handler.2).2]))
      acc).2 =
      callbacks acc.2 ++ handlers.map (fun handler => (getErrors env key acc.1 handler.2).2) ∧
    constructed (handlers.foldl
      (fun (acc : JSObject × List (Event V)) handler =>
        ((getErrors env key acc.1 handler.2).1,
          acc.2 ++ [Event.callback (getErrors env key acc.1 handler.2).2]))
      acc).2 = constructed acc.2 := by
  induction handlers generalizing acc with
  | nil => simp
  | cons x rest ih =>
    rw [List.foldl_cons]
    obtain ⟨ih1, ih2⟩ := ih ((getErrors env key acc.1 x.2).1,
      acc.2 ++ [Event.callback (getErrors env key acc.1 x.2).2])
    rw [ih1, ih2]
    simp only [getErrors_again, callbacks_append, constructed_append, callbacks, constructed,
      List.map_cons, List.append_assoc, List.singleton_append, List.append_nil, and_self]

/-- The calls of `callback` made by `validate`: one for each handler call of the
engine, with the value that `getErrors` shapes from the validator at that call. -/
theorem validate_callbacks {V : Type} (env : Env V) (data : Value) (schema : Schema)
    (options : Options) (validator : V)
    (hok : (createValidator env data schema (!truthy options.key)).result = .ok validator) :
    callbacks (validate env data schema options).trace =
      (env.checkAsync validator).map
        (fun handler => (getErrors env options.key options.prevErrors handler.2).2) := by
  simp only [validate, hok, callbacks_append, createValidator_callbacks, callbacks]
  rw [(handled_callbacks env options.key (env.checkAsync validator) (options.prevErrors, [])).1]
  rfl

theorem validate_callbacks_fault {V : Type} (env : Env V) (data : Value) (schema : Schema)
    (options : Options) (e : Fault)
    (hfault : (createValidator env data schema (!truthy options.key)).result = .error e) :
    callbacks (validate env data schema options).trace = [] := by
  simp only [validate, hfault, createValidator_callbacks]

theorem validate_constructed {V : Type} (env : Env V) (data : Value) (schema : Schema)
    (options : Options) :
    constructed (validate env data schema options).trace =
      constructed (createValidator env data schema (!truthy options.key)).trace := by
  simp only [validate]
  split
  · rfl
  · rename_i validator _
    simp only [constructed_append, constructed,
      (handled_callbacks env options.key (env.checkAsync validator) (options.prevErrors, [])).2,
      List.append_nil]

theorem validateServer_constructed {V : Type} (env : Env V) (data : Value) (schema : Schema) :
    constructed (validateServer env data schema).trace =
      constructed (createValidator env data schema true).trace := by
  simp only [validateServer]
  split
  · rfl
  · simp [constructed_append, constructed]

theorem createValidator_congr {V : Type} (env : Env V) (data : Value) (s1 s2 : Schema)
    (f1 f2 : Bool) (h : selectRules s1 f1 = selectRules s2 f2) :
    createValidator env data s1 f1 = createValidator env data s2 f2 := by
  simp only [createValidator, h]

theorem createValidator_of_rules {V : Type} (env : Env V) (data : Value) (s1 s2 : Schema)
    (f1 f2 : Bool) (h : (selectRules s1 f1).2 = (selectRules s2 f2).2)
    (hm : s1.messages = s2.messages) (hc : s1.callback = s2.callback) :
    (createValidator env data s1 f1).result = (createValidator env data s2 f2).result ∧
    (createValidator env data s1 f1).trace = (createValidator env data s2 f2).trace := by
  simp only [createValidator, selectRules_messages, selectRules_callback, h, hm, hc]
  split
  · exact ⟨rfl, rfl⟩
  · split <;> exact ⟨rfl, rfl⟩

theorem validateServer_of_created {V : Type} (env : Env V) (data : Value) (s1 s2 : Schema)
    (hr : (createValidator env data s1 true).result = (createValidator env data s2 true).result)
    (ht : (createValidator env data s1 true).trace = (createValidator env data s2 true).trace) :
    (validateServer env data s1).result = (validateServer env data s2).result ∧
    (validateServer env data s1).trace = (validateServer env data s2).trace := by
  simp only [validateServer, hr, ht]
  split <;> exact ⟨rfl, rfl⟩

/-- The validator that `createValidator` returns was built from the rules object
that `selectRules` picked, for an engine that keeps the rules. -/
theorem createValidator_rulesOf {V : Type} (env : Env V) (rulesOf : V → JSObject)
    (hengine : KeepsRules env rulesOf) (data : Value) (schema : Schema) (forceActive : Bool)
    (validator : V) (hok : (createValidator env data schema forceActive).result = .ok validator) :
    rulesOf validator = (selectRules schema forceActive).2 := by
  simp only [createValidator] at hok
  split at hok
  · cases hok
  · rename_i v0 hbuilt
    have h0 := hengine.built _ _ _ _ hbuilt
    split at hok
    · rw [hengine.called _ _ _ hok, h0]
    · cases hok
      exact h0

theorem strictEnv_keepsRules : KeepsRules strictEnv id where
  built := by
    intro data rules messages v h
    cases h
    rfl
  called := by
    intro fn v v1 h
    cases h
    rfl
  checked := by
    intro v handler h
    simp only [strictEnv, List.mem_singleton] at h
    rw [h]
  silent := by
    intro v name h
    simp only [id] at h
    simp [strictEnv, h]

theorem handled_whole_prevErrors {V : Type} (env : Env V) (key : Option String)
    (hkey : truthy key = false) (handlers : List (Bool × V))
    (acc : JSObject × List (Event V)) :
    (handlers.foldl
      (fun (acc : JSObject × List (Event V)) handler =>
        ((getErrors env key acc.1 handler.2).1,
          acc.2 ++ [Event.callback (getErrors env key acc.1 handler.2).2]))
      acc).1 = acc.1 := by
  induction handlers generalizing acc with
  | nil => rfl
  | cons x rest ih => rw [List.foldl_cons, ih, getErrors_whole env key hkey]

theorem validate_whole_prevErrors {V : Type} (env : Env V) (data : Value) (schema : Schema)
    (options : Options) (hkey : truthy options.key = false) :
    (validate env data schema options).prevErrors = options.prevErrors := by
  simp only [validate]
  split
  · rfl
  · exact handled_whole_prevErrors env options.key hkey _ _

theorem createValidator_unforced_schema {V : Type} (env : Env V) (data : Value)
    (schema : Schema) : (createValidator env data schema false).schema = schema := by
  rw [createValidator_schema]
  cases h : schema.activeRules with
  | none => rw [selectRules_absent schema false h]
  | some active => rw [selectRules_gated schema active h]

theorem activateRule_fields (schema : Schema) (fieldName : String) :
    (activateRule schema fieldName).rules = schema.rules ∧
    (activateRule schema fieldName).messages = schema.messages ∧
    (activateRule schema fieldName).callback = schema.callback := by
  cases h : schema.activeRules with
  | none => rw [activateRule_absent schema fieldName h]; exact ⟨rfl, rfl, rfl⟩
  | some active =>
    by_cases hr : fieldName ∈ active
    · rw [activateRule_old schema fieldName active h hr]; exact ⟨rfl, rfl, rfl⟩
    · rw [activateRule_new schema fieldName active h hr]; exact ⟨rfl, rfl, rfl⟩

/-! ## The validation runner, client mode -/

/-- C11: on a schema with `activeRules` present, whatever it holds, a `validate`
with `options.key` undefined builds the validator from all of `schema.rules`
(and leaves `activeRules` equal to `Object.keys(schema.rules)`). -/
theorem validate_whole_form_forces_all {V : Type} (env : Env V) (data : Value)
    (schema : Schema) (options : Options) (active : List String)
    (h : schema.activeRules = some active) (hkey : options.key = none) :
    constructed (validate env data schema options).trace =
      [(data, schema.rules, schema.messages)] ∧
    (validate env data schema options).schema.activeRules = some schema.rules.keys := by
  rw [validate_constructed, validate_schema, hkey, createValidator_constructed,
    createValidator_schema]
  simp only [truthy, Bool.not_false]
  rw [selectRules_forced schema active h]
  exact ⟨rfl, rfl⟩

theorem validate_whole_form_forces_all_witness :
    constructed (validate strictEnv testData
      (activateRule (createInactiveSchema testRules testMessages schemaCallback) "name")
      ⟨none, JSObject.empty⟩).trace = [(testData, testRules, testMessages)] ∧
    (validate strictEnv testData
      (activateRule (createInactiveSchema testRules testMessages schemaCallback) "name")
      ⟨none, JSObject.empty⟩).schema.activeRules = some testRules.keys :=
  validate_whole_form_forces_all strictEnv testData
    (activateRule (createInactiveSchema testRules testMessages schemaCallback) "name")
    ⟨none, JSObject.empty⟩ ["name"] (by decide) rfl

/-- C12, as stated, fails: with the field name `__proto__` as `options.key`, the
assignment to `options.prevErrors` runs the setter inherited from
`Object.prototype`; the value passed to the callback has the entries of
`prevErrors` and no entry for the key. -/
theorem proto_key_adds_no_entry :
    callbacks (validate strictEnv testData (createSchema testRules testMessages schemaCallback)
      ⟨some "__proto__", staleErrors⟩).trace = [staleErrors] ∧
    staleErrors.has "__proto__" = false ∧
    staleErrors.keys = ["name", "email"] := by
  decide

/-- C12, amended: when `options.key` is set to a field name other than
`__proto__`, every value passed to the callback of `validate` is
`options.prevErrors` with the entry for that name replaced by the error list the
engine gives for the field: the entry for the name is present and is that list
(the empty sequence when the engine's list is empty), and every other entry is
as in `options.prevErrors`. -/
theorem validate_single_field_shape {V : Type} (env : Env V) (data : Value) (schema : Schema)
    (options : Options) (name : String) (validator : V)
    (hkey : options.key = some name) (hname : name ≠ "") (hplain : name ≠ "__proto__")
    (hok : (createValidator env data schema false).result = .ok validator) :
    callbacks (validate env data schema options).trace =
      (env.checkAsync validator).map
        (fun handler => options.prevErrors.set name (env.errorsGet handler.2 name)) ∧
    ∀ handler, handler ∈ env.checkAsync validator →
      (options.prevErrors.set name (env.errorsGet handler.2 name)).has name = true ∧
      (options.prevErrors.set name (env.errorsGet handler.2 name)).find? name =
        some (env.errorsGet handler.2 name) ∧
      (env.errorsGet handler.2 name = Value.array [] →
        (options.prevErrors.set name (env.errorsGet handler.2 name)).find? name =
          some (Value.array [])) ∧
      ∀ other, other ≠ name →
        (options.prevErrors.set name (env.errorsGet handler.2 name)).find? other =
          options.prevErrors.find? other := by
  have hforce : (!truthy options.key) = false := by simp [hkey, truthy, hname]
  constructor
  · rw [validate_callbacks env data schema options validator (by rw [hforce]; exact hok), hkey]
    simp only [getErrors_single env name hname]
  · intro handler _
    refine ⟨?_, ?_, ?_, ?_⟩
    · simp [JSObject.has, JSObject.find?_set_of_ne _ _ _ _ hplain]
    · simp [JSObject.find?_set_of_ne _ _ _ _ hplain]
    · intro hempty
      simp [JSObject.find?_set_of_ne _ _ _ _ hplain, hempty]
    · intro other hother
      simp [JSObject.find?_set_of_ne _ _ _ _ hplain, hother]

theorem validate_single_field_shape_witness :
    callbacks (validate strictEnv testData (createSchema testRules testMessages schemaCallback)
      ⟨some "email", staleErrors⟩).trace =
      [JSObject.ofList [("name", .array ["The name field is required."]),
        ("email", .array ["invalid"])]] :=
  (validate_single_field_shape strictEnv testData
    (createSchema testRules testMessages schemaCallback) ⟨some "email", staleErrors⟩ "email"
    testRules rfl (by decide) (by decide) rfl).1.trans (by decide)

/-- C13: when `options.key` is undefined, every value passed to the callback of
`validate` is the engine's `errors.all()`; it is the same for every
`options.prevErrors`, and `options.prevErrors` is not modified. -/
theorem validate_whole_form_shape {V : Type} (env : Env V) (data : Value) (schema : Schema)
    (options : Options) (hkey : options.key = none) :
    (∀ validator, (createValidator env data schema true).result = .ok validator →
      callbacks (validate env data schema options).trace =
        (env.checkAsync validator).map (fun handler => env.errorsAll handler.2)) ∧
    (∀ prevErrors, callbacks (validate env data schema ⟨none, prevErrors⟩).trace =
      callbacks (validate env data schema options).trace) ∧
    (validate env data schema options).prevErrors = options.prevErrors := by
  have hfalse : truthy options.key = false := by rw [hkey]; rfl
  have hshape : ∀ (opts : Options), opts.key = none → ∀ validator,
      (createValidator env data schema true).result = .ok validator →
      callbacks (validate env data schema opts).trace =
        (env.checkAsync validator).map (fun handler => env.errorsAll handler.2) := by
    intro opts ho validator hok
    have ht : truthy opts.key = false := by rw [ho]; rfl
    rw [validate_callbacks env data schema opts validator (by rw [ht]; exact hok)]
    simp only [getErrors_whole env opts.key ht]
  refine ⟨hshape options hkey, fun prevErrors => ?_, validate_whole_prevErrors env data schema
    options hfalse⟩
  cases hres : (createValidator env data schema true).result with
  | error e =>
    rw [validate_callbacks_fault env data schema ⟨none, prevErrors⟩ e hres,
      validate_callbacks_fault env data schema options e (by rw [hfalse]; exact hres)]
  | ok validator =>
    rw [hshape ⟨none, prevErrors⟩ rfl validator hres, hshape options hkey validator hres]

theorem validate_whole_form_shape_witness :
    callbacks (validate strictEnv testData (createSchema testRules testMessages schemaCallback)
      ⟨none, staleErrors⟩).trace =
      [JSObject.ofList [("name", .array ["invalid"]), ("email", .array ["invalid"]),
        ("confirm_email", .array ["invalid"])]] ∧
    (validate strictEnv testData (createSchema testRules testMessages schemaCallback)
      ⟨none, staleErrors⟩).prevErrors = staleErrors :=
  ⟨((validate_whole_form_shape strictEnv testData
      (createSchema testRules testMessages schemaCallback) ⟨none, staleErrors⟩ rfl).1
      testRules rfl).trans (by decide),
    (validate_whole_form_shape strictEnv testData
      (createSchema testRules testMessages schemaCallback) ⟨none, staleErrors⟩ rfl).2.2⟩

/-- C14: when the engine's `checkAsync` calls one of its two handlers once, the
callback of `validate` is called exactly once, with the value `getErrors` shapes
from the validator; the value does not depend on which of the two handlers the
engine called, since both are `getErrors`. -/
theorem validate_callback_once {V : Type} (env : Env V) (data : Value) (schema : Schema)
    (options : Options) (validator : V) (passed : Bool) (v : V)
    (hok : (createValidator env data schema (!truthy options.key)).result = .ok validator)
    (hcheck : env.checkAsync validator = [(passed, v)]) :
    callbacks (validate env data schema options).trace =
      [(getErrors env options.key options.prevErrors v).2] ∧
    (callbacks (validate env data schema options).trace).length = 1 ∧
    (flipHandlers env).checkAsync validator = [(!passed, v)] ∧
    callbacks (validate (flipHandlers env) data schema options).trace =
      callbacks (validate env data schema options).trace := by
  have h1 : callbacks (validate env data schema options).trace =
      [(getErrors env options.key options.prevErrors v).2] := by
    rw [validate_callbacks env data schema options validator hok, hcheck]
    rfl
  have hflip : (flipHandlers env).checkAsync validator = [(!passed, v)] := by
    simp [flipHandlers, hcheck]
  refine ⟨h1, by rw [h1]; rfl, hflip, ?_⟩
  rw [h1, validate_callbacks (flipHandlers env) data schema options validator hok, hflip]
  rfl

theorem validate_callback_once_witness :
    callbacks (validate strictEnv testData (createSchema testRules testMessages schemaCallback)
      ⟨some "email", JSObject.empty⟩).trace =
      [(getErrors strictEnv (some "email") JSObject.empty testRules).2] :=
  (validate_callback_once strictEnv testData
    (createSchema testRules testMessages schemaCallback) ⟨some "email", JSObject.empty⟩
    testRules false testRules rfl rfl).1

/-- A single-field `validate` on a name for which the validator has no rule passes
the callback an empty error list for that name, for an engine that keeps the
rules. -/
theorem validate_single_field_empty {V : Type} (env : Env V) (rulesOf : V → JSObject)
    (hengine : KeepsRules env rulesOf) (data : Value) (schema : Schema) (name : String)
    (hname : name ≠ "") (prevErrors : JSObject) (validator : V)
    (hok : (createValidator env data schema false).result = .ok validator)
    (hnone : (rulesOf validator).has name = false) :
    callbacks (validate env data schema ⟨some name, prevErrors⟩).trace =
      (env.checkAsync validator).map (fun _ => prevErrors.set name (Value.array [])) := by
  have hforce : (!truthy (some name)) = false := by simp [truthy, hname]
  rw [validate_callbacks env data schema ⟨some name, prevErrors⟩ validator
    (by show (createValidator env data schema (!truthy (some name))).result = _
        rw [hforce]; exact hok)]
  apply List.map_congr_left
  intro handler hmem
  show (getErrors env (some name) prevErrors handler.2).2 = _
  rw [getErrors_single env name hname,
    hengine.silent handler.2 name (by rw [hengine.checked validator handler hmem]; exact hnone)]

/-! ## The validation runner, server mode -/

/-- C15: when the engine's `checkAsync` calls one of its two handlers once, the
promise of `validateServer` is resolved, with no value, exactly when the engine
called `passes`; otherwise it is rejected with a `strategy.Error` whose message
is `A validation error occurred` and whose `errors` is the engine's
`errors.all()`. -/
theorem validateServer_promise {V : Type} (env : Env V) (data : Value) (schema : Schema)
    (validator : V) (passed : Bool) (v : V)
    (hok : (createValidator env data schema true).result = .ok validator)
    (hcheck : env.checkAsync validator = [(passed, v)]) :
    (validateServer env data schema).result =
      .ok (if passed then Promise.resolved
        else Promise.rejected ⟨"A validation error occurred", env.errorsAll v⟩) ∧
    ((validateServer env data schema).result = .ok Promise.resolved ↔ passed = true) ∧
    (passed = false →
      (validateServer env data schema).result =
        .ok (Promise.rejected ⟨"A validation error occurred", env.errorsAll v⟩)) := by
  have h1 : (validateServer env data schema).result =
      .ok (if passed then Promise.resolved
        else Promise.rejected ⟨"A validation error occurred", env.errorsAll v⟩) := by
    simp only [validateServer, hok, hcheck, List.foldl_cons, List.foldl_nil, settle]
  refine ⟨h1, ?_, fun hp => ?_⟩
  · rw [h1]
    cases passed <;> simp
  · rw [h1, hp]
    rfl

theorem validateServer_promise_witness :
    (validateServer strictEnv testData
      (createInactiveSchema testRules testMessages schemaCallback)).result =
      .ok (Promise.rejected ⟨"A validation error occurred", strictEnv.errorsAll testRules⟩) ∧
    (validateServer quietEnv testData
      (createInactiveSchema testRules testMessages schemaCallback)).result =
      .ok Promise.resolved :=
  ⟨(validateServer_promise strictEnv testData
      (createInactiveSchema testRules testMessages schemaCallback) testRules false testRules
      rfl rfl).2.2 rfl,
    (validateServer_promise quietEnv testData
      (createInactiveSchema testRules testMessages schemaCallback) testRules true testRules
      rfl rfl).1⟩

/-- C16: on a schema with `activeRules` present, whatever it holds,
`validateServer` builds the validator from all of `schema.rules`; the whole
outcome is that of the same call on the schema with any other `activeRules`, in
particular with every rule already active, and the promise and the calls made
are those of the call on the schema without `activeRules`. -/
theorem validateServer_forces_all {V : Type} (env : Env V) (data : Value) (schema : Schema)
    (active : List String) (h : schema.activeRules = some active) :
    constructed (validateServer env data schema).trace =
      [(data, schema.rules, schema.messages)] ∧
    validateServer env data { schema with activeRules := some schema.rules.keys } =
      validateServer env data schema ∧
    (∀ other, validateServer env data { schema with activeRules := some other } =
      validateServer env data schema) ∧
    (validateServer env data { schema with activeRules := none }).result =
      (validateServer env data schema).result ∧
    (validateServer env data { schema with activeRules := none }).trace =
      (validateServer env data schema).trace := by
  have hany : ∀ other, validateServer env data { schema with activeRules := some other } =
      validateServer env data schema := by
    intro other
    have hc : createValidator env data { schema with activeRules := some other } true =
        createValidator env data schema true :=
      createValidator_congr env data _ _ true true
        (by rw [selectRules_forced _ other rfl, selectRules_forced schema active h])
    simp only [validateServer, hc]
  refine ⟨?_, hany _, hany, ?_⟩
  · rw [validateServer_constructed, createValidator_constructed,
      selectRules_forced schema active h]
  · have hc := createValidator_of_rules env data { schema with activeRules := none } schema
      true true
      (by rw [selectRules_absent _ true rfl, selectRules_forced schema active h]) rfl rfl
    exact validateServer_of_created env data _ _ hc.1 hc.2

theorem validateServer_forces_all_witness :
    constructed (validateServer strictEnv testData
      (createInactiveSchema testRules testMessages schemaCallback)).trace =
      [(testData, testRules, testMessages)] ∧
    validateServer strictEnv testData
      { createInactiveSchema testRules testMessages schemaCallback with
        activeRules := some testRules.keys } =
      validateServer strictEnv testData
        (createInactiveSchema testRules testMessages schemaCallback) :=
  ⟨(validateServer_forces_all strictEnv testData
      (createInactiveSchema testRules testMessages schemaCallback) [] rfl).1,
    (validateServer_forces_all strictEnv testData
      (createInactiveSchema testRules testMessages schemaCallback) [] rfl).2.1⟩

/-! ## Gated schemas under single-field validation -/

/-- C17: on a schema built by `createInactiveSchema`, after activating only `a`,
a single-field `validate` hands the engine a rules object without the key `b`,
for every `b` other than `a`; and a single-field `validate` on `b`, when no field
or only `a` was activated, passes the callback `prevErrors` with an empty error
list for `b`, whatever the data, given an engine that reports no error for a
field without a rule. -/
theorem validate_ignores_inactive {V : Type} (env : Env V) (rulesOf : V → JSObject)
    (hengine : KeepsRules env rulesOf) (rules : JSObject) (messages callback data : Value)
    (a b : String) (hab : a ≠ b) (hb : b ≠ "") (prevErrors : JSObject) :
    (∀ key, key ≠ "" →
      ∃ handed, constructed (validate env data
          (activateRule (createInactiveSchema rules messages callback) a)
          ⟨some key, prevErrors⟩).trace = [(data, handed, messages)] ∧
        handed.keys = (if a = "__proto__" then [] else [a]) ∧ handed.has b = false) ∧
    (∀ schema, schema = createInactiveSchema rules messages callback ∨
        schema = activateRule (createInactiveSchema rules messages callback) a →
      ∀ validator, (createValidator env data schema false).result = .ok validator →
        callbacks (validate env data schema ⟨some b, prevErrors⟩).trace =
          (env.checkAsync validator).map (fun _ => prevErrors.set b (Value.array []))) := by
  have hact : activateRule (createInactiveSchema rules messages callback) a =
      { createInactiveSchema rules messages callback with activeRules := some [a] } :=
    activateRule_new _ a [] rfl (by simp)
  have hsel : (selectRules (activateRule (createInactiveSchema rules messages callback) a)
      false).2 = JSObject.empty.set a (rules.get a) := by
    rw [hact, selectRules_gated _ [a] rfl]
    rfl
  have hnob : (JSObject.empty.set a (rules.get a)).has b = false := by
    have hba : ¬ b = a := fun e => hab e.symm
    by_cases ha : a = "__proto__"
    · simp [JSObject.has, JSObject.find?_set, ha, JSObject.find?_empty]
    · simp [JSObject.has, JSObject.find?_set, ha, hba, JSObject.find?_empty]
  have hkeys : (JSObject.empty.set a (rules.get a)).keys = (if a = "__proto__" then [] else [a]) := by
    by_cases ha : a = "__proto__"
    · subst ha
      rw [JSObject.set_proto, if_pos rfl]
      rfl
    · rw [if_neg ha]
      show ((JSObject.empty.set a (rules.get a)).entries).map Prod.fst = [a]
      rw [JSObject.entries_set _ a _ ha]
      rfl
  constructor
  · intro key hkeyne
    refine ⟨JSObject.empty.set a (rules.get a), ?_, hkeys, hnob⟩
    have hforce : (!truthy (some key)) = false := by simp [truthy, hkeyne]
    rw [validate_constructed]
    show constructed (createValidator env data _ (!truthy (some key))).trace = _
    rw [hforce, createValidator_constructed, hsel]
    rfl
  · intro schema hschema validator hok
    have hhanded : (selectRules schema false).2.has b = false := by
      rcases hschema with h0 | h1
      · rw [h0, selectRules_gated _ [] rfl]
        rfl
      · rw [h1, hsel]
        exact hnob
    have hrules := createValidator_rulesOf env rulesOf hengine data schema false validator hok
    rw [(validate_single_field_empty env rulesOf hengine data schema b hb prevErrors validator
      hok (by rw [hrules]; exact hhanded))]

theorem validate_ignores_inactive_witness :
    callbacks (validate strictEnv testData
      (activateRule (createInactiveSchema testRules testMessages schemaCallback) "confirm_email")
      ⟨some "email", JSObject.empty⟩).trace = [JSObject.ofList [("email", .array [])]] :=
  ((validate_ignores_inactive strictEnv id strictEnv_keepsRules testRules testMessages
    schemaCallback testData "confirm_email" "email" (by decide) (by decide) JSObject.empty).2
    (activateRule (createInactiveSchema testRules testMessages schemaCallback) "confirm_email")
    (Or.inr rfl) (JSObject.ofList [("confirm_email", .string "required|email")]) rfl).trans
    (by decide)

/-! ## What the operations leave alone -/

/-- C18: a `validate` with `options.key` set to a field name, and a
`createValidator` with `forceActive` false, leave the schema, `activeRules`
included, as it was. A `validate` that changes `activeRules` is a whole-form one
and a `createValidator` that changes it has `forceActive` true; `validate` and
`validateServer` change the schema only through their `createValidator` call. -/
theorem single_field_keeps_activeRules {V : Type} (env : Env V) (data : Value)
    (schema : Schema) (options : Options) (name : String)
    (hkey : options.key = some name) (hname : name ≠ "") :
    (validate env data schema options).schema.activeRules = schema.activeRules ∧
    (validate env data schema options).schema = schema ∧
    (createValidator env data schema false).schema.activeRules = schema.activeRules ∧
    (∀ opts : Options, (validate env data schema opts).schema.activeRules ≠ schema.activeRules →
      truthy opts.key = false) ∧
    (∀ forceActive,
      (createValidator env data schema forceActive).schema.activeRules ≠ schema.activeRules →
      forceActive = true) ∧
    (∀ opts : Options, (validate env data schema opts).schema =
      (createValidator env data schema (!truthy opts.key)).schema) ∧
    (validateServer env data schema).schema = (createValidator env data schema true).schema := by
  have hforce : (!truthy options.key) = false := by simp [hkey, truthy, hname]
  have hsame : (validate env data schema options).schema = schema := by
    rw [validate_schema, hforce, createValidator_unforced_schema]
  refine ⟨by rw [hsame], hsame, by rw [createValidator_unforced_schema], ?_, ?_,
    fun opts => validate_schema env data schema opts, validateServer_schema env data schema⟩
  · intro opts hne
    cases ht : truthy opts.key with
    | false => rfl
    | true =>
      exfalso
      apply hne
      rw [validate_schema, ht]
      show (createValidator env data schema false).schema.activeRules = _
      rw [createValidator_unforced_schema]
  · intro forceActive hne
    cases forceActive with
    | true => rfl
    | false =>
      exfalso
      apply hne
      rw [createValidator_unforced_schema]

theorem single_field_keeps_activeRules_witness :
    (validate strictEnv testData
      (activateRule (createInactiveSchema testRules testMessages schemaCallback) "email")
      ⟨some "email", JSObject.empty⟩).schema.activeRules =
      (activateRule (createInactiveSchema testRules testMessages schemaCallback)
        "email").activeRules :=
  (single_field_keeps_activeRules strictEnv testData
    (activateRule (createInactiveSchema testRules testMessages schemaCallback) "email")
    ⟨some "email", JSObject.empty⟩ "email" rfl (by decide)).1

/-- C19: `activateRule`, `createValidator`, `validate` and `validateServer` leave
the rules, the messages and the callback of the schema as they were; of the four
attributes only `activeRules` can differ afterwards. -/
theorem operations_keep_rules_messages_callback {V : Type} (env : Env V) (data : Value)
    (schema : Schema) :
    (∀ fieldName,
      (activateRule schema fieldName).rules = schema.rules ∧
      (activateRule schema fieldName).messages = schema.messages ∧
      (activateRule schema fieldName).callback = schema.callback) ∧
    (∀ forceActive,
      (createValidator env data schema forceActive).schema.rules = schema.rules ∧
      (createValidator env data schema forceActive).schema.messages = schema.messages ∧
      (createValidator env data schema forceActive).schema.callback = schema.callback) ∧
    (∀ options,
      (validate env data schema options).schema.rules = schema.rules ∧
      (validate env data schema options).schema.messages = schema.messages ∧
      (validate env data schema options).schema.callback = schema.callback) ∧
    (validateServer env data schema).schema.rules = schema.rules ∧
    (validateServer env data schema).schema.messages = schema.messages ∧
    (validateServer env data schema).schema.callback = schema.callback := by
  have hcreate : ∀ forceActive,
      (createValidator env data schema forceActive).schema.rules = schema.rules ∧
      (createValidator env data schema forceActive).schema.messages = schema.messages ∧
      (createValidator env data schema forceActive).schema.callback = schema.callback := by
    intro forceActive
    rw [createValidator_schema]
    exact ⟨selectRules_rules schema forceActive, selectRules_messages schema forceActive,
      selectRules_callback schema forceActive⟩
  refine ⟨activateRule_fields schema, hcreate, fun options => ?_, ?_⟩
  · rw [validate_schema]
    exact hcreate _
  · rw [validateServer_schema]
    exact hcreate true

/-! ## Timing of the callback -/

/-- C20, as stated, fails: with an engine that calls its handler before
`checkAsync` returns, the callback of `validate` has been called, with the
shaped errors, by the time `validate` returns. -/
theorem callback_called_within_validate :
    callbacks (validateFrame strictEnv (fun _ => 1) testData
      (createSchema testRules testMessages schemaCallback)
      ⟨some "email", JSObject.empty⟩) = [JSObject.ofList [("email", .array ["invalid"])]] := by
  decide

/-- C20, amended: `validate` defers nothing itself. Within its call frame the
callback is called once for each handler call the engine makes before
`checkAsync` returns, and for no other: not at all when the engine makes every
handler call later, and as in the whole run when the engine makes its one handler
call before `checkAsync` returns. -/
theorem validateFrame_callbacks {V : Type} (env : Env V) (early : V → Nat) (data : Value)
    (schema : Schema) (options : Options) (validator : V)
    (hok : (createValidator env data schema (!truthy options.key)).result = .ok validator) :
    callbacks (validateFrame env early data schema options) =
      ((env.checkAsync validator).take (early validator)).map
        (fun handler => (getErrors env options.key options.prevErrors handler.2).2) ∧
    (early validator = 0 → callbacks (validateFrame env early data schema options) = []) ∧
    (∀ passed v, env.checkAsync validator = [(passed, v)] → 0 < early validator →
      callbacks (validateFrame env early data schema options) =
        callbacks (validate env data schema options).trace ∧
      callbacks (validateFrame env early data schema options) ≠ []) := by
  have h1 : callbacks (validateFrame env early data schema options) =
      ((env.checkAsync validator).take (early validator)).map
        (fun handler => (getErrors env options.key options.prevErrors handler.2).2) := by
    rw [validateFrame, validate_callbacks (beforeReturn env early) data schema options
      validator hok]
    rfl
  refine ⟨h1, fun h0 => ?_, fun passed v hcheck hpos => ?_⟩
  · rw [h1, h0]
    rfl
  · have htake : (env.checkAsync validator).take (early validator) = [(passed, v)] := by
      rw [hcheck]
      obtain ⟨n, hn⟩ : ∃ n, early validator = n + 1 := ⟨early validator - 1, by omega⟩
      rw [hn]
      simp
    rw [h1, htake, validate_callbacks env data schema options validator hok, hcheck]
    exact ⟨rfl, by simp⟩

theorem validateFrame_callbacks_witness :
    callbacks (validateFrame strictEnv (fun _ => 0) testData
      (createSchema testRules testMessages schemaCallback)
      ⟨some "email", JSObject.empty⟩) = [] :=
  (validateFrame_callbacks strictEnv (fun _ => 0) testData
    (createSchema testRules testMessages schemaCallback) ⟨some "email", JSObject.empty⟩
    testRules rfl).2.1 rfl

/-! ## Sequences of calls -/

theorem activateRule_activeRules (schema : Schema) (active : List String) (fieldName : String)
    (h : schema.activeRules = some active) :
    (activateRule schema fieldName).activeRules =
      some (if fieldName ∈ active then active else active ++ [fieldName]) := by
  by_cases hr : fieldName ∈ active
  · rw [activateRule_old schema fieldName active h hr, if_pos hr, h]
  · rw [activateRule_new schema fieldName active h hr, if_neg hr]

theorem activateAll_absent (schema : Schema) (names : List String)
    (h : schema.activeRules = none) : activateAll schema names = schema := by
  induction names with
  | nil => rfl
  | cons a rest ih =>
    simp only [activateAll, List.foldl_cons] at ih ⊢
    rw [activateRule_absent schema a h]
    exact ih

theorem activateAll_present (schema : Schema) (names : List String) (active : List String)
    (h : schema.activeRules = some active) :
    (∃ later, (activateAll schema names).activeRules = some later) ∧
    (activateAll schema names).rules = schema.rules ∧
    (activateAll schema names).messages = schema.messages ∧
    (activateAll schema names).callback = schema.callback := by
  induction names generalizing schema active with
  | nil => exact ⟨⟨active, h⟩, rfl, rfl, rfl⟩
  | cons a rest ih =>
    have hstep := ih (activateRule schema a) _ (activateRule_activeRules schema active a h)
    have hf := activateRule_fields schema a
    simp only [activateAll, List.foldl_cons] at hstep ⊢
    exact ⟨hstep.1, hstep.2.1.trans hf.1, hstep.2.2.1.trans hf.2.1,
      hstep.2.2.2.trans hf.2.2⟩

theorem validate_of_created {V : Type} (env : Env V) (data : Value) (s1 s2 : Schema)
    (options : Options)
    (hr : (createValidator env data s1 (!truthy options.key)).result =
      (createValidator env data s2 (!truthy options.key)).result)
    (ht : (createValidator env data s1 (!truthy options.key)).trace =
      (createValidator env data s2 (!truthy options.key)).trace) :
    (validate env data s1 options).trace = (validate env data s2 options).trace ∧
    (validate env data s1 options).prevErrors = (validate env data s2 options).prevErrors ∧
    (validate env data s1 options).fault = (validate env data s2 options).fault := by
  simp only [validate, hr, ht]
  split <;> exact ⟨rfl, rfl, rfl⟩

theorem createValidator_fault {V : Type} (env : Env V) (data : Value) (schema : Schema)
    (forceActive : Bool) (e : Fault) (hfault : Faults env data schema forceActive e) :
    (createValidator env data schema forceActive).result = .error e := by
  rcases hfault with hctor | ⟨v, hctor, hfn, hcall⟩
  · simp only [createValidator, selectRules_messages, hctor]
  · simp only [createValidator, selectRules_messages, selectRules_callback, hctor, if_pos hfn,
      hcall]

theorem truthy_eq_false_iff (key : Option String) :
    truthy key = false ↔ key = none ∨ key = some "" := by
  cases key with
  | none => simp [truthy]
  | some name => simp [truthy]

/-! ## Which path `validate` takes -/

/-- C21, as stated, fails: with the empty string as `options.key`, `validate`
forces every rule active, hands the engine all the rules and passes the callback
the complete error mapping; `createValidator` with `forceActive` false would have
handed the engine no rule. -/
theorem empty_key_takes_whole_form_path :
    constructed (validate strictEnv testData
      (createInactiveSchema testRules testMessages schemaCallback)
      ⟨some "", staleErrors⟩).trace = [(testData, testRules, testMessages)] ∧
    constructed (createValidator strictEnv testData
      (createInactiveSchema testRules testMessages schemaCallback) false).trace =
      [(testData, JSObject.empty, testMessages)] ∧
    (validate strictEnv testData (createInactiveSchema testRules testMessages schemaCallback)
      ⟨some "", staleErrors⟩).schema.activeRules = some ["name", "email", "confirm_email"] ∧
    callbacks (validate strictEnv testData
      (createInactiveSchema testRules testMessages schemaCallback)
      ⟨some "", staleErrors⟩).trace =
      [JSObject.ofList [("name", .array ["invalid"]), ("email", .array ["invalid"]),
        ("confirm_email", .array ["invalid"])]] := by
  decide

/-- C21, amended: the path of `validate` goes by the truthiness of `options.key`.
For every key that is a non-empty string, `validate` uses `forceActive` false and
passes the callback `prevErrors` with that field's result merged in; when the key
is undefined or the empty string, and only then, it uses `forceActive` true and
passes the callback the complete error mapping. -/
theorem validate_path_by_truthiness {V : Type} (env : Env V) (data : Value) (schema : Schema)
    (options : Options) :
    (∀ name, options.key = some name → name ≠ "" →
      (validate env data schema options).schema =
        (createValidator env data schema false).schema ∧
      constructed (validate env data schema options).trace =
        constructed (createValidator env data schema false).trace ∧
      ∀ validator, (createValidator env data schema false).result = .ok validator →
        callbacks (validate env data schema options).trace =
          (env.checkAsync validator).map
            (fun handler => options.prevErrors.set name (env.errorsGet handler.2 name))) ∧
    (options.key = none ∨ options.key = some "" →
      (validate env data schema options).schema =
        (createValidator env data schema true).schema ∧
      constructed (validate env data schema options).trace =
        constructed (createValidator env data schema true).trace ∧
      ∀ validator, (createValidator env data schema true).result = .ok validator →
        callbacks (validate env data schema options).trace =
          (env.checkAsync validator).map (fun handler => env.errorsAll handler.2)) ∧
    ((!truthy options.key) = true ↔ options.key = none ∨ options.key = some "") := by
  refine ⟨fun name hkey hname => ?_, fun hkey => ?_, ?_⟩
  · have hforce : (!truthy options.key) = false := by simp [hkey, truthy, hname]
    refine ⟨by rw [validate_schema, hforce], by rw [validate_constructed, hforce],
      fun validator hok => ?_⟩
    rw [validate_callbacks env data schema options validator (by rw [hforce]; exact hok), hkey]
    simp only [getErrors_single env name hname]
  · have hfalse : truthy options.key = false := (truthy_eq_false_iff options.key).2 hkey
    have hforce : (!truthy options.key) = true := by rw [hfalse]; rfl
    refine ⟨by rw [validate_schema, hforce], by rw [validate_constructed, hforce],
      fun validator hok => ?_⟩
    rw [validate_callbacks env data schema options validator (by rw [hforce]; exact hok)]
    simp only [getErrors_whole env options.key hfalse]
  · rw [← truthy_eq_false_iff]
    cases truthy options.key <;> simp

/-- C22: for every rules, messages, data and every sequence of prior
`activateRule` calls, a whole-form `validate` hands the engine the same rules
object, `rules` itself, on `createInactiveSchema(rules, messages, callback)` as on
`createSchema(rules, messages, callback)`; all the calls made, and so the values
the callback receives, are the same in both cases. -/
theorem whole_form_same_for_both_builders {V : Type} (env : Env V) (data : Value)
    (rules : JSObject) (messages callback : Value) (names : List String)
    (prevErrors : JSObject) :
    constructed (validate env data
      (activateAll (createInactiveSchema rules messages callback) names)
      ⟨none, prevErrors⟩).trace = [(data, rules, messages)] ∧
    constructed (validate env data
      (activateAll (createSchema rules messages callback) names)
      ⟨none, prevErrors⟩).trace = [(data, rules, messages)] ∧
    activateAll (createSchema rules messages callback) names =
      createSchema rules messages callback ∧
    (validate env data (activateAll (createInactiveSchema rules messages callback) names)
      ⟨none, prevErrors⟩).trace =
      (validate env data (createSchema rules messages callback) ⟨none, prevErrors⟩).trace ∧
    callbacks (validate env data
      (activateAll (createInactiveSchema rules messages callback) names)
      ⟨none, prevErrors⟩).trace =
      callbacks (validate env data (createSchema rules messages callback)
        ⟨none, prevErrors⟩).trace := by
  have hplain : activateAll (createSchema rules messages callback) names =
      createSchema rules messages callback := activateAll_absent _ names rfl
  obtain ⟨⟨later, hlater⟩, hrules, hmessages, hcallback⟩ :=
    activateAll_present (createInactiveSchema rules messages callback) names [] rfl
  have hsel : (selectRules
      (activateAll (createInactiveSchema rules messages callback) names) true).2 =
      (selectRules (createSchema rules messages callback) true).2 := by
    rw [selectRules_forced _ later hlater, selectRules_absent _ true rfl, hrules]
    rfl
  have hcreated := createValidator_of_rules env data
    (activateAll (createInactiveSchema rules messages callback) names)
    (createSchema rules messages callback) true true hsel hmessages hcallback
  have htrace := (validate_of_created env data _ _ ⟨none, prevErrors⟩ hcreated.1 hcreated.2).1
  have hhanded : constructed (validate env data (createSchema rules messages callback)
      ⟨none, prevErrors⟩).trace = [(data, rules, messages)] := by
    rw [validate_constructed, createValidator_constructed, selectRules_absent _ _ rfl]
    rfl
  refine ⟨by rw [htrace]; exact hhanded, by rw [hplain]; exact hhanded, hplain, htrace,
    by rw [htrace]⟩

/-! ## Faults -/

/-- C23: when the engine's constructor or the schema's callback hook throws,
`createValidator` ends with that same error; so does `validate`, which then makes
no call of `checkAsync` and no call of its callback, and so does
`validateServer`, which then returns no promise. -/
theorem faults_propagate {V : Type} (env : Env V) (data : Value) (schema : Schema)
    (forceActive : Bool) (e : Fault) (hfault : Faults env data schema forceActive e) :
    (createValidator env data schema forceActive).result = .error e ∧
    (∀ options : Options, (!truthy options.key) = forceActive →
      (validate env data schema options).fault = some e ∧
      callbacks (validate env data schema options).trace = [] ∧
      (validate env data schema options).trace =
        (createValidator env data schema forceActive).trace) ∧
    (forceActive = true →
      (validateServer env data schema).result = .error e ∧
      (validateServer env data schema).trace =
        (createValidator env data schema forceActive).trace) := by
  have hres := createValidator_fault env data schema forceActive e hfault
  refine ⟨hres, fun options hkey => ?_, fun hforce => ?_⟩
  · subst hkey
    refine ⟨?_, validate_callbacks_fault env data schema options e hres, ?_⟩
    · simp only [validate, hres]
    · simp only [validate, hres]
  · subst hforce
    constructor
    · simp only [validateServer, hres]
    · simp only [validateServer, hres]

theorem faults_propagate_witness :
    (validate brokenEnv testData (createSchema testRules testMessages schemaCallback)
      ⟨some "email", staleErrors⟩).fault = some malformedRules ∧
    callbacks (validate brokenEnv testData (createSchema testRules testMessages schemaCallback)
      ⟨some "email", staleErrors⟩).trace = [] ∧
    (validateServer throwingHookEnv testData
      (createSchema testRules testMessages schemaCallback)).result = .error hookFailure :=
  ⟨((faults_propagate brokenEnv testData (createSchema testRules testMessages schemaCallback)
      false malformedRules (Or.inl rfl)).2.1 ⟨some "email", staleErrors⟩ rfl).1,
    ((faults_propagate brokenEnv testData (createSchema testRules testMessages schemaCallback)
      false malformedRules (Or.inl rfl)).2.1 ⟨some "email", staleErrors⟩ rfl).2.1,
    ((faults_propagate throwingHookEnv testData
      (createSchema testRules testMessages schemaCallback) true hookFailure
      (Or.inr ⟨testRules, rfl, rfl, rfl⟩)).2.2 rfl).1⟩

/-! ## Permanence and order of activation -/

theorem mem_activated (active : List String) (fieldName x : String) :
    x ∈ (if fieldName ∈ active then active else active ++ [fieldName]) ↔
      x ∈ active ∨ x = fieldName := by
  by_cases hr : fieldName ∈ active
  · rw [if_pos hr]
    constructor
    · exact Or.inl
    · rintro (h | h)
      · exact h
      · rw [h]; exact hr
  · rw [if_neg hr]
    simp

theorem perm_activated_twice (active : List String) (a b : String) :
    (if b ∈ (if a ∈ active then active else active ++ [a])
      then (if a ∈ active then active else active ++ [a])
      else (if a ∈ active then active else active ++ [a]) ++ [b]).Perm
    (if a ∈ (if b ∈ active then active else active ++ [b])
      then (if b ∈ active then active else active ++ [b])
      else (if b ∈ active then active else active ++ [b]) ++ [a]) := by
  by_cases ha : a ∈ active <;> by_cases hb : b ∈ active
  · simp [ha, hb]
  · simp [ha, hb]
  · simp [ha, hb]
  · by_cases hab : a = b
    · subst hab
      simp [ha]
    · have hba : ¬ b = a := fun e => hab e.symm
      simp only [ha, hb, if_false, List.mem_append, List.mem_singleton, hab, hba, or_self,
        List.append_assoc]
      exact List.Perm.append_left active (List.Perm.swap b a [])

/-- What stays true of a schema once its `activeRules` holds every key of its
rules. -/
theorem later_invariant {V : Type} (env : Env V) (start later : Schema)
    (hstart : ∃ active, start.activeRules = some active ∧ ∀ k, k ∈ start.rules.keys → k ∈ active)
    (hlater : Later env start later) :
    later.rules = start.rules ∧ later.messages = start.messages ∧
    ∃ active, later.activeRules = some active ∧ ∀ k, k ∈ start.rules.keys → k ∈ active := by
  induction hlater with
  | now => exact ⟨rfl, rfl, hstart⟩
  | @activated schema fieldName _ ih =>
    obtain ⟨hr, hm, active, ha, hall⟩ := ih
    have hf := activateRule_fields schema fieldName
    refine ⟨hf.1.trans hr, hf.2.1.trans hm, _,
      activateRule_activeRules schema active fieldName ha, fun k hk => ?_⟩
    exact (mem_activated active fieldName k).2 (Or.inl (hall k hk))
  | @validated schema data forceActive _ ih =>
    obtain ⟨hr, hm, active, ha, hall⟩ := ih
    rw [createValidator_schema]
    refine ⟨(selectRules_rules schema forceActive).trans hr,
      (selectRules_messages schema forceActive).trans hm, ?_⟩
    cases forceActive with
    | true =>
      rw [selectRules_forced schema active ha]
      exact ⟨schema.rules.keys, rfl, fun k hk => by rw [hr]; exact hk⟩
    | false =>
      rw [selectRules_gated schema active ha]
      exact ⟨active, ha, hall⟩

/-- C24: on a schema with `activeRules` present, after one `createValidator`
call with `forceActive` true (the one a whole-form `validate` or a
`validateServer` makes), every key of `schema.rules` stays in `activeRules`
through all later calls of `activateRule` and `createValidator`; every later
`createValidator` call with `forceActive` false hands the engine every rule of
`schema.rules` (exactly `schema.rules` right after the forced call and whenever
`activeRules` holds keys of `schema.rules` only), and `activateRule` for a key of
`schema.rules` changes nothing. -/
theorem forced_activation_permanent {V : Type} (env : Env V) (data : Value) (schema : Schema)
    (active : List String) (h : schema.activeRules = some active) (later : Schema)
    (hlater : Later env (createValidator env data schema true).schema later) :
    (validateServer env data schema).schema = (createValidator env data schema true).schema ∧
    (∀ prevErrors, (validate env data schema ⟨none, prevErrors⟩).schema =
      (createValidator env data schema true).schema) ∧
    (∀ data1, constructed (createValidator env data1
      (createValidator env data schema true).schema false).trace =
        [(data1, schema.rules, schema.messages)]) ∧
    (∀ k, k ∈ schema.rules.keys → k ∈ activeNames later) ∧
    (∀ data1, ∃ handed,
      constructed (createValidator env data1 later false).trace =
        [(data1, handed, schema.messages)] ∧
      (∀ k, k ∈ schema.rules.keys → handed.find? k = schema.rules.find? k) ∧
      ((∀ k, k ∈ activeNames later → k ∈ schema.rules.keys) →
        ∀ k, handed.find? k = schema.rules.find? k)) ∧
    (∀ k, k ∈ schema.rules.keys → activateRule later k = later) := by
  have hforced : (createValidator env data schema true).schema =
      { schema with activeRules := some schema.rules.keys } := by
    rw [createValidator_schema, selectRules_forced schema active h]
  rw [hforced] at hlater ⊢
  obtain ⟨hr, hm, act, hact, hall⟩ := later_invariant env
    ({ schema with activeRules := some schema.rules.keys } : Schema) later
    ⟨schema.rules.keys, rfl, fun k hk => hk⟩ hlater
  have hr1 : later.rules = schema.rules := hr
  have hm1 : later.messages = schema.messages := hm
  have hall1 : ∀ k, k ∈ schema.rules.keys → k ∈ act := hall
  refine ⟨?_, fun prevErrors => ?_, fun data1 => ?_, fun k hk => ?_, fun data1 => ?_,
    fun k hk => ?_⟩
  · rw [validateServer_schema, hforced]
  · rw [validate_schema]
    exact hforced
  · rw [createValidator_constructed, selectRules_gated _ schema.rules.keys rfl]
    show [(data1, schema.rules.keys.foldl
      (fun rules ruleName => rules.set ruleName (schema.rules.get ruleName)) JSObject.empty,
      schema.messages)] = _
    rw [foldl_set_keys]
  · simpa [activeNames, hact] using hall1 k hk
  · refine ⟨_, by rw [createValidator_constructed, selectRules_gated later act hact, hm1],
      fun k hk => ?_, fun honly k => ?_⟩
    · have hne : k ≠ "__proto__" := fun e => schema.rules.plain (e ▸ hk)
      rw [find?_foldl_set, if_pos ⟨hall1 k hk, hne⟩, hr1, JSObject.find?_of_mem_keys _ k hk]
    · rw [find?_foldl_set, hr1]
      by_cases hk : k ∈ schema.rules.keys
      · have hne : k ≠ "__proto__" := fun e => schema.rules.plain (e ▸ hk)
        rw [if_pos ⟨hall1 k hk, hne⟩, JSObject.find?_of_mem_keys _ k hk]
      · have hnot : k ∉ act := fun hmem => hk (honly k (by simpa [activeNames, hact] using hmem))
        rw [if_neg (fun hc => hnot hc.1), JSObject.find?_of_not_mem_keys _ k hk]
        rfl
  · exact activateRule_old later k act hact (hall1 k hk)

theorem forced_activation_permanent_witness :
    (∀ k, k ∈ testRules.keys →
      k ∈ activeNames (activateRule (createValidator strictEnv testData
        (createInactiveSchema testRules testMessages schemaCallback) true).schema "ghost")) ∧
    (∀ k, k ∈ testRules.keys →
      activateRule (activateRule (createValidator strictEnv testData
        (createInactiveSchema testRules testMessages schemaCallback) true).schema "ghost") k =
      activateRule (createValidator strictEnv testData
        (createInactiveSchema testRules testMessages schemaCallback) true).schema "ghost") :=
  ⟨(forced_activation_permanent strictEnv testData
      (createInactiveSchema testRules testMessages schemaCallback) [] rfl _
      (.activated "ghost" .now)).2.2.2.1,
    (forced_activation_permanent strictEnv testData
      (createInactiveSchema testRules testMessages schemaCallback) [] rfl _
      (.activated "ghost" .now)).2.2.2.2.2⟩

/-- C25: on a schema with `activeRules` present, activating `a` then `b` and
activating `b` then `a` give `activeRules` with the same members, one a
reordering of the other, and `createValidator` with `forceActive` false hands the
engine the same mapping from field to rule in both cases. -/
theorem activation_order_irrelevant {V : Type} (env : Env V) (data : Value) (schema : Schema)
    (active : List String) (a b : String) (h : schema.activeRules = some active) :
    (∀ x, x ∈ activeNames (activateRule (activateRule schema a) b) ↔
      x ∈ activeNames (activateRule (activateRule schema b) a)) ∧
    (activeNames (activateRule (activateRule schema a) b)).Perm
      (activeNames (activateRule (activateRule schema b) a)) ∧
    ∃ handedAB handedBA,
      constructed (createValidator env data (activateRule (activateRule schema a) b)
        false).trace = [(data, handedAB, schema.messages)] ∧
      constructed (createValidator env data (activateRule (activateRule schema b) a)
        false).trace = [(data, handedBA, schema.messages)] ∧
      ∀ k, handedAB.find? k = handedBA.find? k := by
  have hab := activateRule_activeRules (activateRule schema a) _ b
    (activateRule_activeRules schema active a h)
  have hba := activateRule_activeRules (activateRule schema b) _ a
    (activateRule_activeRules schema active b h)
  have hfab : (activateRule (activateRule schema a) b).rules = schema.rules ∧
      (activateRule (activateRule schema a) b).messages = schema.messages :=
    ⟨(activateRule_fields _ b).1.trans (activateRule_fields schema a).1,
      (activateRule_fields _ b).2.1.trans (activateRule_fields schema a).2.1⟩
  have hfba : (activateRule (activateRule schema b) a).rules = schema.rules ∧
      (activateRule (activateRule schema b) a).messages = schema.messages :=
    ⟨(activateRule_fields _ a).1.trans (activateRule_fields schema b).1,
      (activateRule_fields _ a).2.1.trans (activateRule_fields schema b).2.1⟩
  have hmem : ∀ x, x ∈ activeNames (activateRule (activateRule schema a) b) ↔
      x ∈ activeNames (activateRule (activateRule schema b) a) := by
    intro x
    simp only [activeNames, hab, hba, Option.getD_some]
    refine ((mem_activated _ b x).trans (or_congr (mem_activated active a x) Iff.rfl)).trans
      (Iff.trans ?_
        ((mem_activated _ a x).trans (or_congr (mem_activated active b x) Iff.rfl)).symm)
    constructor
    · rintro ((h1 | h1) | h1)
      · exact Or.inl (Or.inl h1)
      · exact Or.inr h1
      · exact Or.inl (Or.inr h1)
    · rintro ((h1 | h1) | h1)
      · exact Or.inl (Or.inl h1)
      · exact Or.inr h1
      · exact Or.inl (Or.inr h1)
  refine ⟨hmem, ?_, _, _,
    by rw [createValidator_constructed, selectRules_gated _ _ hab, hfab.2],
    by rw [createValidator_constructed, selectRules_gated _ _ hba, hfba.2], fun k => ?_⟩
  · simp only [activeNames, hab, hba, Option.getD_some]
    exact perm_activated_twice active a b
  · have hk := hmem k
    simp only [activeNames, hab, hba, Option.getD_some] at hk
    rw [find?_foldl_set, find?_foldl_set, hfab.1, hfba.1]
    by_cases hin : k ∈ (if b ∈ (if a ∈ active then active else active ++ [a])
        then (if a ∈ active then active else active ++ [a])
        else (if a ∈ active then active else active ++ [a]) ++ [b])
    · by_cases hp : k = "__proto__"
      · rw [if_neg (fun hc => hc.2 hp), if_neg (fun hc => hc.2 hp)]
      · rw [if_pos ⟨hin, hp⟩, if_pos ⟨hk.1 hin, hp⟩]
    · rw [if_neg (fun hc => hin hc.1), if_neg (fun hc => hin (hk.2 hc.1))]

theorem activation_order_irrelevant_witness :
    (activeNames (activateRule (activateRule
      (createInactiveSchema testRules testMessages schemaCallback) "email") "name")).Perm
    (activeNames (activateRule (activateRule
      (createInactiveSchema testRules testMessages schemaCallback) "name") "email")) :=
  (activation_order_irrelevant strictEnv testData
    (createInactiveSchema testRules testMessages schemaCallback) [] "email" "name" rfl).2.1

end Strategy
